import Mathlib

/-!
Verification of the ipfs 8-to-9 CID-to-multihash key migration engine
(`swapper.go`, `migration.go`) against its specification.

The datastore, its keys and the CID codec are shallowly embedded:
keys are segment lists, the store is an association list of key/value
pairs, the CID codec is an abstract collaborator record, and every
store operation a worker issues is additionally recorded in a trace so
that ordering properties (sync before delete, log flushed before the
real run) can be stated and proved.
-/

namespace Mg8

/-- A datastore key: a path of segments.  `ds.NewKey("/blocks/X")` is
modelled as `["blocks", "X"]`. -/
abbrev DsKey := List String

/-- Block contents, as a byte list (its length drives the sync batching). -/
abbrev Value := List Nat

/-- `ds.Key.BaseNamespace`: the final segment of the key path. -/
def DsKey.baseNamespace (k : DsKey) : String := k.getLast?.getD ""

/-- `ds.Key.Parent`: the key path without its final segment. -/
def DsKey.parent (k : DsKey) : DsKey := k.dropLast

/-- `ds.Key.Child`: append one segment under a namespace. -/
def DsKey.child (k : DsKey) (s : String) : DsKey := k ++ [s]

/-- A content identifier: version plus the raw multihash it wraps
(`cid.Cid` with `Version()` and `Hash()`). -/
structure Cid where
  version : Nat
  hash : Nat
deriving DecidableEq, Repr

/-- The key codec collaborator: `dsKeyToCid` (decode the final key
segment into a CID) and `dshelp.MultihashToDsKey` (encode a raw
multihash as a key segment). -/
structure Codec where
  dsKeyToCid : String → Option Cid
  multihashToDsKey : Nat → String

/-- Association-list lookup (first match wins). -/
def alookup {α β : Type} [DecidableEq α] : List (α × β) → α → Option β
  | [], _ => none
  | (k, v) :: rest, x => if x = k then some v else alookup rest x

/-- Association-list insert-or-overwrite (as a Go map assignment or a
datastore `Put`). -/
def aput {α β : Type} [DecidableEq α] : List (α × β) → α → β → List (α × β)
  | [], k, v => [(k, v)]
  | (k', v') :: rest, k, v =>
      if k' = k then (k, v) :: rest else (k', v') :: aput rest k v

/-- Association-list removal of a key (as a datastore `Delete`). -/
def adel {α β : Type} [DecidableEq α] : List (α × β) → α → List (α × β)
  | [], _ => []
  | (k', v') :: rest, k =>
      if k' = k then adel rest k else (k', v') :: adel rest k

/-- The datastore collaborator: key/value contents plus a fault set of
keys on which `Put` reports an I/O error (the store contract allows any
operation to fail; the model localizes injectable faults to `Put`). -/
structure DStore where
  data : List (DsKey × Value)
  failPut : List DsKey := []
deriving DecidableEq, Repr

def DStore.get (st : DStore) (k : DsKey) : Option Value := alookup st.data k

def DStore.put (st : DStore) (k : DsKey) (v : Value) : DStore :=
  { st with data := aput st.data k v }

def DStore.del (st : DStore) (k : DsKey) : DStore :=
  { st with data := adel st.data k }

/-- One store operation issued by a worker, recorded in order. -/
inductive StoreOp where
  | get (k : DsKey)
  | put (k : DsKey) (v : Value)
  | delete (k : DsKey)
  | sync (ns : DsKey)
deriving DecidableEq, Repr

/-- The key an operation touches (`sync` takes a namespace, not a key). -/
def StoreOp.key? : StoreOp → Option DsKey
  | .get k => some k
  | .put k _ => some k
  | .delete k => some k
  | .sync _ => none

/-- Store-level errors a worker distinguishes: `ds.ErrNotFound` from
`Get`, and a generic I/O failure from `Put`. -/
inductive StoreErr where
  | notFound
  | putFail
deriving DecidableEq, Repr

/-- A `query.Result`: either a streamed key or a query error. -/
abbrev QueryResult := Except String DsKey

/-- `query.Query{Prefix: ns, KeysOnly: true}`: stream the keys strictly
under the namespace, in store order. -/
def DStore.queryKeys (st : DStore) (ns : DsKey) : List QueryResult :=
  (st.data.filter (fun e => ns.isPrefixOf e.1 && e.1 != ns)).map (fun e => .ok e.1)

/-- A `Swap` record: the datastore keys for the original CID and for
the destination multihash. -/
structure Swap where
  old : DsKey
  new : DsKey
deriving DecidableEq, Repr

/-- Per-worker mutable state (`swapWorker` struct): swap count, bytes
since the last sync, the store, the sync namespace, the pending
deletions, plus the recorded operation trace. -/
structure SwapWorker where
  swapped : Nat
  curSyncSize : Nat
  store : DStore
  syncNs : DsKey
  toDelete : List DsKey
  trace : List StoreOp
deriving DecidableEq, Repr

/-- Issue a `Get` against the store. -/
def SwapWorker.getOp (sw : SwapWorker) (k : DsKey) : SwapWorker × Option Value :=
  ({ sw with trace := sw.trace ++ [.get k] }, sw.store.get k)

/-- Issue a `Put` against the store; fails on keys in the fault set. -/
def SwapWorker.putOp (sw : SwapWorker) (k : DsKey) (v : Value) :
    SwapWorker × Option StoreErr :=
  if k ∈ sw.store.failPut then
    ({ sw with trace := sw.trace ++ [.put k v] }, some .putFail)
  else
    ({ sw with store := sw.store.put k v, trace := sw.trace ++ [.put k v] }, none)

/-- Issue a `Delete` against the store. -/
def SwapWorker.deleteOp (sw : SwapWorker) (k : DsKey) : SwapWorker :=
  { sw with store := sw.store.del k, trace := sw.trace ++ [.delete k] }

/-- `swapWorker.sync`: a durability sync scoped to the worker's namespace. -/
def SwapWorker.syncOp (sw : SwapWorker) : SwapWorker :=
  { sw with trace := sw.trace ++ [.sync sw.syncNs] }

/-- `swapWorker.syncAndDelete`: sync, then delete every pending old key,
then clear the pending list. -/
def SwapWorker.syncAndDelete (sw : SwapWorker) : SwapWorker :=
  let sw1 := sw.syncOp
  let sw2 := sw1.toDelete.foldl (fun w o => w.deleteOp o) sw1
  { sw2 with toDelete := [] }

/-- `swapWorker.swap`: copy the value from `old` to `new`, queue `old`
for deletion, and flush (sync then delete) once the byte counter
reaches the threshold, resetting the counter first. -/
def SwapWorker.swap (syncSize : Nat) (sw : SwapWorker) (old new : DsKey) :
    SwapWorker × Option StoreErr :=
  match sw.getOp old with
  | (sw1, none) => (sw1, some .notFound)
  | (sw1, some v) =>
    match sw1.putOp new v with
    | (sw2, some e) => (sw2, some e)
    | (sw2, none) =>
      let sw3 := { sw2 with
        toDelete := sw2.toDelete ++ [old],
        swapped := sw2.swapped + 1,
        curSyncSize := sw2.curSyncSize + v.length }
      if syncSize ≤ sw3.curSyncSize then
        (SwapWorker.syncAndDelete { sw3 with curSyncSize := 0 }, none)
      else
        (sw3, none)

/-- State threaded through `CidSwapper.swapWorker`'s result loop: the
worker, the per-key error count, and the `SwapCh` notifications sent. -/
structure WorkerLoopState where
  sw : SwapWorker
  errored : Nat
  notifs : List Swap
deriving DecidableEq, Repr

/-- One iteration of `CidSwapper.swapWorker`'s result loop: count query
errors, skip keys that do not decode to a CID, skip version-0 CIDs, and
swap (or in a dry run just count) version-≥1 CIDs, notifying `SwapCh`. -/
def swapStep (codec : Codec) (dryRun : Bool) (syncSize : Nat) (hasCh : Bool)
    (st : WorkerLoopState) (res : QueryResult) : WorkerLoopState :=
  match res with
  | .error _ => { st with errored := st.errored + 1 }
  | .ok oldKey =>
    match codec.dsKeyToCid oldKey.baseNamespace with
    | none => st
    | some c =>
      if c.version = 0 then st
      else
        let newKey := oldKey.parent.child (codec.multihashToDsKey c.hash)
        if dryRun then
          { st with
            sw := { st.sw with swapped := st.sw.swapped + 1 },
            notifs := if hasCh then st.notifs ++ [⟨oldKey, newKey⟩] else st.notifs }
        else
          match SwapWorker.swap syncSize st.sw oldKey newKey with
          | (sw1, some _) => { st with sw := sw1, errored := st.errored + 1 }
          | (sw1, none) =>
            { st with
              sw := sw1,
              notifs := if hasCh then st.notifs ++ [⟨oldKey, newKey⟩] else st.notifs }

/-- The result loop of `CidSwapper.swapWorker` over the streamed query
results. -/
def swapWorkerLoop (codec : Codec) (dryRun : Bool) (syncSize : Nat) (hasCh : Bool)
    (results : List QueryResult) (store : DStore) (syncNs : DsKey) : WorkerLoopState :=
  results.foldl (swapStep codec dryRun syncSize hasCh)
    ⟨⟨0, 0, store, syncNs, [], []⟩, 0, []⟩

/-- `CidSwapper.swapWorker`: the result loop followed, outside dry runs,
by the final flush (sync, pending deletions, second sync). -/
def swapWorkerRun (codec : Codec) (dryRun : Bool) (syncSize : Nat) (hasCh : Bool)
    (results : List QueryResult) (store : DStore) (syncNs : DsKey) : WorkerLoopState :=
  let fin := swapWorkerLoop codec dryRun syncSize hasCh results store syncNs
  if dryRun then fin
  else { fin with sw := fin.sw.syncAndDelete.syncOp }

/-- `CidSwapper.runWorkers`: aggregate each worker's (count, errors)
pair; fail when any worker recorded an error. -/
def runWorkers (results : List (Nat × Nat)) : Nat × Option String :=
  let total : Nat := results.foldl (fun acc r => acc + r.1) 0
  let nErrors : Nat := results.foldl (fun acc r => acc + r.2) 0
  (total,
    if 0 < nErrors then
      some "errors happened during the migration. Consider running it again"
    else none)

/-- Result of `CidSwapper.Run`: the returned count and error, plus the
final worker state. -/
structure RunResult where
  total : Nat
  errMsg : Option String
  fin : WorkerLoopState
deriving DecidableEq, Repr

/-- `CidSwapper.Run`: query every key under the namespace and hand the
stream to the swap worker, aggregating through `runWorkers`. -/
def CidSwapperRun (codec : Codec) (syncSize : Nat) (ns : DsKey) (hasCh : Bool)
    (store : DStore) (dryRun : Bool) : RunResult :=
  let results := store.queryKeys ns
  let fin := swapWorkerRun codec dryRun syncSize hasCh results store ns
  let agg := runWorkers [(fin.sw.swapped, fin.errored)]
  ⟨agg.1, agg.2, fin⟩

/-- State threaded through `CidSwapper.unswapWorker`: the worker, the
error count, the multihash-to-CID de-duplication map, and the
notifications sent. -/
structure UnswapState where
  swker : SwapWorker
  errored : Nat
  unswappedMap : List (DsKey × DsKey)
  notifs : List Swap
deriving DecidableEq, Repr

/-- One iteration of `CidSwapper.unswapWorker`: undo one swap by copying
the value at `new` back to `old`; on `ErrNotFound` consult the
de-duplication map and re-store the previously reverted value; update
the map after every restoration that reaches the common tail. -/
def unswapStep (syncSize : Nat) (hasCh : Bool) (st : UnswapState) (r : Swap) :
    UnswapState :=
  match SwapWorker.swap syncSize st.swker r.new r.old with
  | (w1, some .notFound) =>
    match alookup st.unswappedMap r.new with
    | none => { st with swker := w1, errored := st.errored + 1 }
    | some swappedTo =>
      let w2 := w1.syncOp
      match w2.getOp swappedTo with
      | (w3, none) => { st with swker := w3, errored := st.errored + 1 }
      | (w3, some v) =>
        match w3.putOp r.old v with
        | (w4, some _) =>
          { swker := { w4 with swapped := w4.swapped + 1 },
            errored := st.errored + 1,
            unswappedMap := aput st.unswappedMap r.new r.old,
            notifs := if hasCh then st.notifs ++ [⟨r.new, r.old⟩] else st.notifs }
        | (w4, none) =>
          { swker := { w4 with swapped := w4.swapped + 1 },
            errored := st.errored,
            unswappedMap := aput st.unswappedMap r.new r.old,
            notifs := if hasCh then st.notifs ++ [⟨r.new, r.old⟩] else st.notifs }
  | (w1, some _) => { st with swker := w1, errored := st.errored + 1 }
  | (w1, none) =>
    { st with
      swker := w1,
      unswappedMap := aput st.unswappedMap r.new r.old,
      notifs := if hasCh then st.notifs ++ [⟨r.new, r.old⟩] else st.notifs }

/-- `CidSwapper.unswapWorker`: process every record, then the final
flush (sync, pending deletions, second sync). -/
def unswapWorkerRun (syncSize : Nat) (hasCh : Bool) (records : List Swap)
    (store : DStore) (syncNs : DsKey) : UnswapState :=
  let fin := records.foldl (unswapStep syncSize hasCh)
    ⟨⟨0, 0, store, syncNs, [], []⟩, 0, [], []⟩
  { fin with swker := fin.swker.syncAndDelete.syncOp }

/-- Result of `CidSwapper.Revert`. -/
structure RevertResult where
  total : Nat
  errMsg : Option String
  fin : UnswapState
deriving DecidableEq, Repr

/-- `CidSwapper.Revert`: a single unswap worker aggregated through
`runWorkers` with one worker. -/
def CidSwapperRevert (syncSize : Nat) (ns : DsKey) (hasCh : Bool)
    (store : DStore) (records : List Swap) : RevertResult :=
  let fin := unswapWorkerRun syncSize hasCh records store ns
  let agg := runWorkers [(fin.swker.swapped, fin.errored)]
  ⟨agg.1, agg.2, fin⟩

/-- Classification of one store key (`swapWorker` loop body, lines
121-135): `none` when the key is skipped (not CID-encoded, or already a
version-0 multihash key), otherwise the rewritten key: the parent
namespace with the multihash segment appended. -/
def candidateNewKey (codec : Codec) (k : DsKey) : Option DsKey :=
  match codec.dsKeyToCid k.baseNamespace with
  | none => none
  | some c =>
    if c.version = 0 then none
    else some (k.parent.child (codec.multihashToDsKey c.hash))

/-- Whether a key's final segment decodes to a version-0 CID. -/
def decodesV0 (codec : Codec) (k : DsKey) : Bool :=
  match codec.dsKeyToCid k.baseNamespace with
  | some c => c.version == 0
  | none => false

/-- Whether a key's final segment decodes to a version-≥1 CID. -/
def decodesV1 (codec : Codec) (k : DsKey) : Bool :=
  match codec.dsKeyToCid k.baseNamespace with
  | some c => !(c.version == 0)
  | none => false

/-- Delete several keys in sequence. -/
def delAll (st : DStore) (ks : List DsKey) : DStore := ks.foldl DStore.del st

/-- The durability-ordering property of a worker trace: every delete of
an old key is preceded by a put of its candidate new key, with a sync
of the namespace strictly between the put and the delete. -/
def TraceOK (codec : Codec) (ns : DsKey) (tr : List StoreOp) : Prop :=
  ∀ (d : Nat) (k : DsKey), tr[d]? = some (StoreOp.delete k) →
    ∃ (p s : Nat) (nk : DsKey) (v : Value), p < s ∧ s < d ∧
      candidateNewKey codec k = some nk ∧
      tr[p]? = some (StoreOp.put nk v) ∧ tr[s]? = some (StoreOp.sync ns)

/-- Every key pending deletion already has the put of its candidate new
key in the trace. -/
def PendOK (codec : Codec) (tr : List StoreOp) (pend : List DsKey) : Prop :=
  ∀ k ∈ pend, ∃ (p : Nat) (nk : DsKey) (v : Value), candidateNewKey codec k = some nk ∧
    tr[p]? = some (StoreOp.put nk v)

/-- Events observable at the `Migration.Apply` orchestration layer: a
backup-log line buffered by the writer goroutine, the flush of the
backup log, and a store operation of the real (non-dry) run. -/
inductive ApplyEvent where
  | logLine (k : DsKey)
  | logFlush
  | storeEv (op : StoreOp)
deriving DecidableEq, Repr

/-- Result of the modelled portion of `Migration.Apply`. -/
structure ApplyResult where
  events : List ApplyEvent
  records : List Swap
  store : DStore
  failed : Bool
deriving DecidableEq, Repr

/-- The dry-run pass of `Migration.Apply`: run each namespace in
dry-run mode with the backup channel attached, aborting on error.
Returns the emitted Swap records, the store, and the failure flag. -/
def dryPhase (codec : Codec) (syncSize : Nat) :
    List DsKey → DStore → List Swap × DStore × Bool
  | [], store => ([], store, false)
  | ns :: rest, store =>
    let r := CidSwapperRun codec syncSize ns true store true
    if r.errMsg.isSome then (r.fin.notifs, r.fin.sw.store, true)
    else
      let q := dryPhase codec syncSize rest r.fin.sw.store
      (r.fin.notifs ++ q.1, q.2.1, q.2.2)

/-- The real pass of `Migration.Apply`: run each namespace with no
channel attached, aborting on error.  Returns the store operations
performed, the final store, and the failure flag. -/
def realPhase (codec : Codec) (syncSize : Nat) :
    List DsKey → DStore → List StoreOp × DStore × Bool
  | [], store => ([], store, false)
  | ns :: rest, store =>
    let r := CidSwapperRun codec syncSize ns false store false
    if r.errMsg.isSome then (r.fin.sw.trace, r.fin.sw.store, true)
    else
      let q := realPhase codec syncSize rest r.fin.sw.store
      (r.fin.sw.trace ++ q.1, q.2.1, q.2.2)

/-- `Migration.Apply` from the point the backup file is opened: the
dry-run passes feed the writer goroutine; the orchestrator closes the
channel, waits for the writer, and flushes the buffer (the `logFlush`
event) before the real passes mutate the store. -/
def applyModel (codec : Codec) (syncSize : Nat) (nss : List DsKey) (store : DStore) :
    ApplyResult :=
  let d := dryPhase codec syncSize nss store
  if d.2.2 then ⟨d.1.map (fun s => .logLine s.old), d.1, d.2.1, true⟩
  else
    let r := realPhase codec syncSize nss d.2.1
    ⟨d.1.map (fun s => .logLine s.old) ++ [ApplyEvent.logFlush]
        ++ r.1.map ApplyEvent.storeEv,
      d.1, r.2.1, r.2.2⟩

/-- The backup-file scanner goroutine of `Migration.Revert`: each
logged line is an old-key path; recompute the multihash key from its
final segment and rebuild the Swap record.  On the first line that does
not parse, record a scanner error and stop producing. -/
def parseBackupLines (codec : Codec) : List DsKey → List Swap × Bool
  | [] => ([], false)
  | l :: rest =>
    match codec.dsKeyToCid l.baseNamespace with
    | none => ([], true)
    | some c =>
      let q := parseBackupLines codec rest
      (⟨l, l.parent.child (codec.multihashToDsKey c.hash)⟩ :: q.1, q.2)

/-- The tail of `Migration.Revert` after opening the backup file: run
the reversal over the scanned records, then return following the
source's error logic (`return err` on a scanner error, where `err` is
the already-checked reversal error).  The Bool records whether the
completion steps (version write, backup rename) were reached. -/
def migrationRevertModel (codec : Codec) (syncSize : Nat) (lines : List DsKey)
    (store : DStore) : Option String × Bool × RevertResult :=
  let p := parseBackupLines codec lines
  let r := CidSwapperRevert syncSize [] false store p.1
  match r.errMsg with
  | some e => (some e, false, r)
  | none =>
    if p.2 then (none, false, r)
    else (none, true, r)

/-- A concrete codec for concrete runs: segments "a" and "b" decode to
version-1 and version-2 CIDs wrapping multihash 5, segment "m" decodes
to the version-0 CID wrapping multihash 5, and multihash 5 encodes to
segment "m". -/
def exCodec : Codec :=
  { dsKeyToCid := fun s =>
      if s = "a" then some ⟨1, 5⟩
      else if s = "b" then some ⟨2, 5⟩
      else if s = "m" then some ⟨0, 5⟩
      else none,
    multihashToDsKey := fun _ => "m" }

/-- A concrete worker over a one-block store, for concrete runs. -/
def exWorker : SwapWorker :=
  ⟨0, 0, ⟨[(["blocks", "a"], [7])], []⟩, ["blocks"], [], []⟩

/-- A concrete initial loop state over an empty store. -/
def exState0 : WorkerLoopState :=
  ⟨⟨0, 0, ⟨[], []⟩, ["blocks"], [], []⟩, 0, []⟩

/-- A concrete unswap state for the collapse path: the value is missing
at the multihash key, the de-duplication map records a prior reversal
to `blocks/a`, and a `Put` at `blocks/b` fails. -/
def exUnswap10 : UnswapState :=
  ⟨⟨0, 0, ⟨[(["blocks", "a"], [7])], [["blocks", "b"]]⟩, ["blocks"], [], []⟩,
    0, [(["blocks", "m"], ["blocks", "a"])], []⟩

/-- A concrete unswap state whose de-duplication map already holds an
entry for the multihash key while the value is still present there. -/
def exUnswap7 : UnswapState :=
  ⟨⟨0, 0, ⟨[(["blocks", "m"], [9])], []⟩, ["blocks"], [], []⟩,
    0, [(["blocks", "m"], ["blocks", "a"])], []⟩

/-- A concrete codec for round-trip runs: "a" and "b" decode to
distinct version-≥1 CIDs sharing multihash 1 (so the two keys collapse
onto one new key), "z" decodes to a version-0 CID with hash 9, and a
multihash encodes to the segment "m1". -/
def c1Codec : Codec :=
  { dsKeyToCid := fun s =>
      if s = "a" then some ⟨1, 1⟩
      else if s = "b" then some ⟨2, 1⟩
      else if s = "z" then some ⟨0, 9⟩
      else none,
    multihashToDsKey := fun _ => "m1" }

/-- A codec exhibiting both failure modes of the unrestricted round
trip: "a" decodes to a version-1 CID whose multihash segment is the
existing version-0 key segment "m", while "b" and "c" decode to
distinct version-≥1 CIDs sharing multihash 7 (segment "n"). -/
def cxCodec : Codec :=
  { dsKeyToCid := fun s =>
      if s = "a" then some ⟨1, 5⟩
      else if s = "m" then some ⟨0, 5⟩
      else if s = "b" then some ⟨1, 7⟩
      else if s = "c" then some ⟨2, 7⟩
      else none,
    multihashToDsKey := fun h => if h = 5 then "m" else "n" }

/-- The counterexample store for the round-trip claim: a version-1 key
whose new key collides with the version-0 key `blocks/m`, and two keys
`blocks/b`, `blocks/c` that collapse onto one new key while holding
different values. -/
def cxStore : List (DsKey × Value) :=
  [(["blocks", "a"], [1]), (["blocks", "m"], [2]),
   (["blocks", "b"], [3]), (["blocks", "c"], [4])]

/-- Entries of a store whose key decodes to a version-≥1 CID. -/
def v1Entries (codec : Codec) (l : List (DsKey × Value)) : List (DsKey × Value) :=
  l.filter (fun e => decodesV1 codec e.1)

/-- The Swap records produced over a list of store entries, in order. -/
def recordsOf (codec : Codec) (l : List (DsKey × Value)) : List Swap :=
  l.filterMap (fun e => (candidateNewKey codec e.1).map (fun nk => Swap.mk e.1 nk))

/-- The rewritten (new key, value) pairs of a list of store entries. -/
def newsOf (codec : Codec) (l : List (DsKey × Value)) : List (DsKey × Value) :=
  l.filterMap (fun e => (candidateNewKey codec e.1).map (fun nk => (nk, e.2)))

/-- Invariant of the forward swap loop after processing the entries
`procd` of the initial store `st0`: no faults, no errors counted,
notifications match the processed records, and the store holds the new
keys of the processed version-≥1 entries, with the already-flushed old
keys deleted and the rest pending deletion. -/
def FwdInv (codec : Codec) (st0 procd : List (DsKey × Value))
    (st : WorkerLoopState) : Prop :=
  st.sw.store.failPut = [] ∧
  st.errored = 0 ∧
  st.notifs = recordsOf codec procd ∧
  ∃ deleted pend : List DsKey,
    (v1Entries codec procd).map Prod.fst = deleted ++ pend ∧
    st.sw.toDelete = pend ∧
    (∀ (x : DsKey) (v : Value), alookup (newsOf codec procd) x = some v →
      alookup st.sw.store.data x = some v) ∧
    (∀ x : DsKey, alookup (newsOf codec procd) x = none → x ∈ deleted →
      alookup st.sw.store.data x = none) ∧
    (∀ x : DsKey, alookup (newsOf codec procd) x = none → ¬ x ∈ deleted →
      alookup st.sw.store.data x = alookup st0 x)

/-- Invariant of the reversal loop after processing the records of the
entries `procd` of `st0`, starting from the forward-migrated store: no
faults, no errors counted, every pending deletion is a processed new
key, the processed originals are restored, a processed new key is
deleted unless still pending (then it keeps its forward value),
everything untouched keeps its forward-run characterization, and the
de-duplication map sends every processed new key to a processed
original key that classifies to it. -/
def RevInv (codec : Codec) (st0 procd : List (DsKey × Value))
    (st : UnswapState) : Prop :=
  st.swker.store.failPut = [] ∧
  st.errored = 0 ∧
  (∀ x : DsKey, x ∈ st.swker.toDelete → x ∈ (newsOf codec procd).map Prod.fst) ∧
  (∀ (x : DsKey) (v : Value), alookup (v1Entries codec procd) x = some v →
    alookup st.swker.store.data x = some v) ∧
  (∀ x : DsKey, alookup (v1Entries codec procd) x = none →
    x ∈ (newsOf codec procd).map Prod.fst → ¬ x ∈ st.swker.toDelete →
    alookup st.swker.store.data x = none) ∧
  (∀ (x : DsKey) (v : Value), alookup (v1Entries codec procd) x = none →
    (¬ x ∈ (newsOf codec procd).map Prod.fst ∨ x ∈ st.swker.toDelete) →
    alookup (newsOf codec st0) x = some v →
    alookup st.swker.store.data x = some v) ∧
  (∀ x : DsKey, alookup (v1Entries codec procd) x = none →
    alookup (newsOf codec st0) x = none →
    x ∈ (v1Entries codec st0).map Prod.fst →
    alookup st.swker.store.data x = none) ∧
  (∀ x : DsKey, alookup (v1Entries codec procd) x = none →
    alookup (newsOf codec st0) x = none →
    ¬ x ∈ (v1Entries codec st0).map Prod.fst →
    alookup st.swker.store.data x = alookup st0 x) ∧
  (∀ x : DsKey, x ∈ (newsOf codec procd).map Prod.fst →
    ∃ k : DsKey, alookup st.unswappedMap x = some k ∧
      candidateNewKey codec k = some x ∧
      k ∈ (v1Entries codec procd).map Prod.fst)

end Mg8

namespace Mg8

theorem alookup_eq_none_iff {α β : Type} [DecidableEq α] (l : List (α × β)) (x : α) :
    alookup l x = none ↔ x ∉ l.map Prod.fst := by
  induction l with
  | nil => simp [alookup]
  | cons p rest ih =>
    obtain ⟨k, v⟩ := p
    by_cases h : x = k
    · subst h; simp [alookup]
    · simp [alookup, h, ih]

theorem alookup_aput_self {α β : Type} [DecidableEq α] (l : List (α × β)) (k : α) (v : β) :
    alookup (aput l k v) k = some v := by
  induction l with
  | nil => simp [aput, alookup]
  | cons p rest ih =>
    obtain ⟨k', v'⟩ := p
    by_cases h : k' = k
    · subst h; simp [aput, alookup]
    · simp [aput, alookup, h, Ne.symm h, ih]

theorem alookup_aput_ne {α β : Type} [DecidableEq α] (l : List (α × β)) (k : α) (v : β)
    (x : α) (hx : x ≠ k) : alookup (aput l k v) x = alookup l x := by
  induction l with
  | nil => simp [aput, alookup, hx]
  | cons p rest ih =>
    obtain ⟨k', v'⟩ := p
    by_cases h : k' = k
    · subst h; simp [aput, alookup, hx]
    · by_cases h2 : x = k'
      · subst h2; simp [aput, alookup, h]
      · simp [aput, alookup, h, h2, ih]

theorem alookup_adel_self {α β : Type} [DecidableEq α] (l : List (α × β)) (k : α) :
    alookup (adel l k) k = none := by
  induction l with
  | nil => simp [adel, alookup]
  | cons p rest ih =>
    obtain ⟨k', v'⟩ := p
    by_cases h : k' = k
    · simp [adel, h, ih]
    · simp [adel, alookup, h, Ne.symm h, ih]

theorem alookup_adel_ne {α β : Type} [DecidableEq α] (l : List (α × β)) (k : α)
    (x : α) (hx : x ≠ k) : alookup (adel l k) x = alookup l x := by
  induction l with
  | nil => simp [adel]
  | cons p rest ih =>
    obtain ⟨k', v'⟩ := p
    by_cases h : k' = k
    · subst h; simp [adel, alookup, hx, ih]
    · by_cases h2 : x = k'
      · subst h2; simp [adel, alookup, h]
      · simp [adel, alookup, h, h2, ih]

theorem alookup_append {α β : Type} [DecidableEq α] (l m : List (α × β)) (x : α) :
    alookup (l ++ m) x =
      match alookup l x with
      | some v => some v
      | none => alookup m x := by
  induction l with
  | nil => simp [alookup]
  | cons p rest ih =>
    obtain ⟨k, v⟩ := p
    by_cases h : x = k
    · simp [alookup, h]
    · simp [alookup, h, ih]

theorem alookup_of_mem_nodup {α β : Type} [DecidableEq α] (l : List (α × β))
    (k : α) (v : β) (hmem : (k, v) ∈ l) (hnd : (l.map Prod.fst).Nodup) :
    alookup l k = some v := by
  induction l with
  | nil => simp at hmem
  | cons p rest ih =>
    obtain ⟨k', v'⟩ := p
    simp only [List.map_cons, List.nodup_cons] at hnd
    rcases List.mem_cons.mp hmem with h | h
    · rw [Prod.mk.injEq] at h
      obtain ⟨h1, h2⟩ := h
      subst h1
      subst h2
      simp [alookup]
    · have hk : k ≠ k' := by
        intro he
        exact hnd.1 (he ▸ (List.mem_map.mpr ⟨(k, v), h, rfl⟩))
      simp [alookup, hk, ih h hnd.2]

theorem mem_of_alookup_eq_some {α β : Type} [DecidableEq α] (l : List (α × β))
    (k : α) (v : β) (h : alookup l k = some v) : (k, v) ∈ l := by
  induction l with
  | nil => simp [alookup] at h
  | cons p rest ih =>
    obtain ⟨k', v'⟩ := p
    by_cases hk : k = k'
    · subst hk
      have hv : v' = v := by simpa [alookup] using h
      subst hv
      exact List.mem_cons_self _ _
    · simp only [alookup, if_neg hk] at h
      exact List.mem_cons_of_mem _ (ih h)

theorem delAll_data (st : DStore) (ks : List DsKey) (x : DsKey) :
    alookup (delAll st ks).data x = if x ∈ ks then none else alookup st.data x := by
  induction ks generalizing st with
  | nil => simp [delAll]
  | cons k rest ih =>
    by_cases h : x = k
    · subst h
      simp only [delAll, List.foldl_cons, List.mem_cons, true_or, if_pos]
      rw [show List.foldl DStore.del (st.del x) rest = delAll (st.del x) rest from rfl, ih]
      simp [DStore.del, alookup_adel_self]
    · simp only [delAll, List.foldl_cons, List.mem_cons]
      rw [show List.foldl DStore.del (st.del k) rest = delAll (st.del k) rest from rfl, ih]
      simp [DStore.del, alookup_adel_ne _ _ _ h, h]

theorem delAll_failPut (st : DStore) (ks : List DsKey) :
    (delAll st ks).failPut = st.failPut := by
  induction ks generalizing st with
  | nil => rfl
  | cons k rest ih => simpa [delAll, DStore.del] using ih (st.del k)

theorem foldl_deleteOp (w : SwapWorker) (ks : List DsKey) :
    ks.foldl (fun w o => w.deleteOp o) w =
      { w with store := delAll w.store ks, trace := w.trace ++ ks.map StoreOp.delete } := by
  induction ks generalizing w with
  | nil => simp [delAll]
  | cons k rest ih =>
    rw [List.foldl_cons]
    show List.foldl (fun w o => w.deleteOp o) (w.deleteOp k) rest = _
    rw [ih]
    simp [SwapWorker.deleteOp, delAll]

theorem syncAndDelete_eq (sw : SwapWorker) :
    sw.syncAndDelete =
      { sw with
        store := delAll sw.store sw.toDelete,
        toDelete := [],
        trace := sw.trace ++ [StoreOp.sync sw.syncNs] ++ sw.toDelete.map StoreOp.delete } := by
  simp only [SwapWorker.syncAndDelete]
  rw [foldl_deleteOp]
  simp [SwapWorker.syncOp]

end Mg8

namespace Mg8

theorem swap_eval_notfound (syncSize : Nat) (sw : SwapWorker) (old new : DsKey)
    (hget : sw.store.get old = none) :
    sw.swap syncSize old new =
      ({ sw with trace := sw.trace ++ [StoreOp.get old] }, some .notFound) := by
  simp [SwapWorker.swap, SwapWorker.getOp, hget]

theorem swap_eval_putfail (syncSize : Nat) (sw : SwapWorker) (old new : DsKey) (v : Value)
    (hget : sw.store.get old = some v) (hfail : new ∈ sw.store.failPut) :
    sw.swap syncSize old new =
      ({ sw with trace := sw.trace ++ [StoreOp.get old, StoreOp.put new v] },
        some .putFail) := by
  simp [SwapWorker.swap, SwapWorker.getOp, hget, SwapWorker.putOp, hfail]

theorem swap_eval_noflush (syncSize : Nat) (sw : SwapWorker) (old new : DsKey) (v : Value)
    (hget : sw.store.get old = some v) (hok : new ∉ sw.store.failPut)
    (hth : sw.curSyncSize + v.length < syncSize) :
    sw.swap syncSize old new =
      ({ sw with
          store := sw.store.put new v,
          toDelete := sw.toDelete ++ [old],
          swapped := sw.swapped + 1,
          curSyncSize := sw.curSyncSize + v.length,
          trace := sw.trace ++ [StoreOp.get old, StoreOp.put new v] }, none) := by
  have hth2 : ¬ (syncSize ≤ sw.curSyncSize + v.length) := by omega
  simp [SwapWorker.swap, SwapWorker.getOp, hget, SwapWorker.putOp, hok, DStore.put, hth2]

theorem swap_eval_flush (syncSize : Nat) (sw : SwapWorker) (old new : DsKey) (v : Value)
    (hget : sw.store.get old = some v) (hok : new ∉ sw.store.failPut)
    (hth : syncSize ≤ sw.curSyncSize + v.length) :
    sw.swap syncSize old new =
      ({ swapped := sw.swapped + 1,
         curSyncSize := 0,
         store := delAll (sw.store.put new v) (sw.toDelete ++ [old]),
         syncNs := sw.syncNs,
         toDelete := [],
         trace := sw.trace ++ [StoreOp.get old, StoreOp.put new v, StoreOp.sync sw.syncNs]
           ++ (sw.toDelete ++ [old]).map StoreOp.delete }, none) := by
  simp only [SwapWorker.swap, SwapWorker.getOp, hget, SwapWorker.putOp, DStore.put]
  rw [if_neg hok]
  simp only [hth, if_pos, syncAndDelete_eq]
  simp [DStore.put]

theorem swapStep_queryErr (codec : Codec) (dryRun : Bool) (syncSize : Nat) (hasCh : Bool)
    (st : WorkerLoopState) (e : String) :
    swapStep codec dryRun syncSize hasCh st (.error e) =
      { st with errored := st.errored + 1 } := rfl

theorem swapStep_skip (codec : Codec) (dryRun : Bool) (syncSize : Nat) (hasCh : Bool)
    (st : WorkerLoopState) (k : DsKey)
    (h : codec.dsKeyToCid k.baseNamespace = none) :
    swapStep codec dryRun syncSize hasCh st (.ok k) = st := by
  simp [swapStep, h]

theorem swapStep_skipV0 (codec : Codec) (dryRun : Bool) (syncSize : Nat) (hasCh : Bool)
    (st : WorkerLoopState) (k : DsKey) (c : Cid)
    (h : codec.dsKeyToCid k.baseNamespace = some c) (h0 : c.version = 0) :
    swapStep codec dryRun syncSize hasCh st (.ok k) = st := by
  simp [swapStep, h, h0]

theorem swapStep_dryV1 (codec : Codec) (syncSize : Nat) (hasCh : Bool)
    (st : WorkerLoopState) (k : DsKey) (c : Cid)
    (h : codec.dsKeyToCid k.baseNamespace = some c) (h0 : ¬ c.version = 0) :
    swapStep codec true syncSize hasCh st (.ok k) =
      { st with
        sw := { st.sw with swapped := st.sw.swapped + 1 },
        notifs := if hasCh then
            st.notifs ++ [⟨k, k.parent.child (codec.multihashToDsKey c.hash)⟩]
          else st.notifs } := by
  simp [swapStep, h, h0]

theorem swapStep_realV1 (codec : Codec) (syncSize : Nat) (hasCh : Bool)
    (st : WorkerLoopState) (k : DsKey) (c : Cid)
    (h : codec.dsKeyToCid k.baseNamespace = some c) (h0 : ¬ c.version = 0) :
    swapStep codec false syncSize hasCh st (.ok k) =
      match SwapWorker.swap syncSize st.sw k (k.parent.child (codec.multihashToDsKey c.hash)) with
      | (sw1, some _) => { st with sw := sw1, errored := st.errored + 1 }
      | (sw1, none) =>
        { st with
          sw := sw1,
          notifs := if hasCh then
              st.notifs ++ [⟨k, k.parent.child (codec.multihashToDsKey c.hash)⟩]
            else st.notifs } := by
  simp [swapStep, h, h0]

theorem unswapStep_ok (syncSize : Nat) (hasCh : Bool) (st : UnswapState) (r : Swap)
    (w1 : SwapWorker) (hswap : SwapWorker.swap syncSize st.swker r.new r.old = (w1, none)) :
    unswapStep syncSize hasCh st r =
      { st with
        swker := w1,
        unswappedMap := aput st.unswappedMap r.new r.old,
        notifs := if hasCh then st.notifs ++ [⟨r.new, r.old⟩] else st.notifs } := by
  simp [unswapStep, hswap]

theorem unswapStep_err (syncSize : Nat) (hasCh : Bool) (st : UnswapState) (r : Swap)
    (w1 : SwapWorker)
    (hswap : SwapWorker.swap syncSize st.swker r.new r.old = (w1, some .putFail)) :
    unswapStep syncSize hasCh st r =
      { st with swker := w1, errored := st.errored + 1 } := by
  simp [unswapStep, hswap]

theorem unswapStep_nf_nomap (syncSize : Nat) (hasCh : Bool) (st : UnswapState) (r : Swap)
    (w1 : SwapWorker)
    (hswap : SwapWorker.swap syncSize st.swker r.new r.old = (w1, some .notFound))
    (hmap : alookup st.unswappedMap r.new = none) :
    unswapStep syncSize hasCh st r =
      { st with swker := w1, errored := st.errored + 1 } := by
  simp [unswapStep, hswap, hmap]

theorem unswapStep_nf_getfail (syncSize : Nat) (hasCh : Bool) (st : UnswapState) (r : Swap)
    (w1 : SwapWorker) (prior : DsKey)
    (hswap : SwapWorker.swap syncSize st.swker r.new r.old = (w1, some .notFound))
    (hmap : alookup st.unswappedMap r.new = some prior)
    (hget : w1.store.get prior = none) :
    unswapStep syncSize hasCh st r =
      { st with
        swker := { w1 with trace := w1.trace ++ [StoreOp.sync w1.syncNs, StoreOp.get prior] },
        errored := st.errored + 1 } := by
  simp [unswapStep, hswap, hmap, SwapWorker.syncOp, SwapWorker.getOp, hget]

theorem unswapStep_nf_restore (syncSize : Nat) (hasCh : Bool) (st : UnswapState) (r : Swap)
    (w1 : SwapWorker) (prior : DsKey) (v : Value)
    (hswap : SwapWorker.swap syncSize st.swker r.new r.old = (w1, some .notFound))
    (hmap : alookup st.unswappedMap r.new = some prior)
    (hget : w1.store.get prior = some v) (hok : r.old ∉ w1.store.failPut) :
    unswapStep syncSize hasCh st r =
      { swker := { w1 with
          store := w1.store.put r.old v,
          swapped := w1.swapped + 1,
          trace := w1.trace ++ [StoreOp.sync w1.syncNs, StoreOp.get prior,
            StoreOp.put r.old v] },
        errored := st.errored,
        unswappedMap := aput st.unswappedMap r.new r.old,
        notifs := if hasCh then st.notifs ++ [⟨r.new, r.old⟩] else st.notifs } := by
  simp [unswapStep, hswap, hmap, SwapWorker.syncOp, SwapWorker.getOp, hget,
    SwapWorker.putOp, hok]

theorem unswapStep_nf_restore_putfail (syncSize : Nat) (hasCh : Bool) (st : UnswapState)
    (r : Swap) (w1 : SwapWorker) (prior : DsKey) (v : Value)
    (hswap : SwapWorker.swap syncSize st.swker r.new r.old = (w1, some .notFound))
    (hmap : alookup st.unswappedMap r.new = some prior)
    (hget : w1.store.get prior = some v) (hfail : r.old ∈ w1.store.failPut) :
    unswapStep syncSize hasCh st r =
      { swker := { w1 with
          swapped := w1.swapped + 1,
          trace := w1.trace ++ [StoreOp.sync w1.syncNs, StoreOp.get prior,
            StoreOp.put r.old v] },
        errored := st.errored + 1,
        unswappedMap := aput st.unswappedMap r.new r.old,
        notifs := if hasCh then st.notifs ++ [⟨r.new, r.old⟩] else st.notifs } := by
  simp [unswapStep, hswap, hmap, SwapWorker.syncOp, SwapWorker.getOp, hget,
    SwapWorker.putOp, hfail]

end Mg8

namespace Mg8

theorem foldl_add_fst (rs : List (Nat × Nat)) (a : Nat) :
    rs.foldl (fun acc r => acc + r.1) a = a + (rs.map Prod.fst).sum := by
  induction rs generalizing a with
  | nil => simp
  | cons p rest ih => simp [ih, add_assoc]

theorem foldl_add_snd (rs : List (Nat × Nat)) (a : Nat) :
    rs.foldl (fun acc r => acc + r.2) a = a + (rs.map Prod.snd).sum := by
  induction rs generalizing a with
  | nil => simp
  | cons p rest ih => simp [ih, add_assoc]

theorem sum_pos_iff_exists (l : List Nat) : 0 < l.sum ↔ ∃ x ∈ l, 0 < x := by
  induction l with
  | nil => simp
  | cons a rest ih =>
    simp only [List.sum_cons, List.mem_cons]
    constructor
    · intro h
      by_cases ha : 0 < a
      · exact ⟨a, Or.inl rfl, ha⟩
      · have hr : 0 < rest.sum := by omega
        obtain ⟨x, hx, hx2⟩ := ih.mp hr
        exact ⟨x, Or.inr hx, hx2⟩
    · rintro ⟨x, hx | hx, hx2⟩
      · subst hx; omega
      · have := List.single_le_sum (by intro y hy; omega) x hx
        omega

/-- C6: `CidSwapper.Run` returns the sum of all workers' swap counts,
it errors exactly when some worker recorded at least one per-key error,
and even then the returned count is the count of swaps actually
performed (the run is not aborted early). -/
theorem c6_run_aggregation :
    (∀ rs : List (Nat × Nat),
      (runWorkers rs).1 = (rs.map Prod.fst).sum ∧
      ((runWorkers rs).2.isSome ↔ ∃ p ∈ rs, 0 < p.2)) ∧
    (∀ (codec : Codec) (syncSize : Nat) (ns : DsKey) (hasCh : Bool) (store : DStore)
      (dryRun : Bool),
      (CidSwapperRun codec syncSize ns hasCh store dryRun).total =
        (swapWorkerRun codec dryRun syncSize hasCh (store.queryKeys ns) store ns).sw.swapped ∧
      ((CidSwapperRun codec syncSize ns hasCh store dryRun).errMsg.isSome ↔
        0 < (swapWorkerRun codec dryRun syncSize hasCh (store.queryKeys ns) store ns).errored)) := by
  constructor
  · intro rs
    constructor
    · simp [runWorkers, foldl_add_fst]
    · rw [show (runWorkers rs).2 =
          (if 0 < rs.foldl (fun acc r => acc + r.2) 0 then
            some "errors happened during the migration. Consider running it again"
          else none) from rfl]
      rw [foldl_add_snd, Nat.zero_add]
      constructor
      · intro hs
        by_cases h : 0 < (rs.map Prod.snd).sum
        · obtain ⟨x, hx, hx2⟩ := (sum_pos_iff_exists _).mp h
          obtain ⟨p, hp, rfl⟩ := List.mem_map.mp hx
          exact ⟨p, hp, hx2⟩
        · rw [if_neg h] at hs
          simp at hs
      · rintro ⟨p, hp, hp2⟩
        have h : 0 < (rs.map Prod.snd).sum :=
          (sum_pos_iff_exists _).mpr ⟨p.2, List.mem_map.mpr ⟨p, hp, rfl⟩, hp2⟩
        rw [if_pos h]
        rfl
  · intro codec syncSize ns hasCh store dryRun
    constructor
    · simp [CidSwapperRun, runWorkers]
    · simp only [CidSwapperRun, runWorkers, Nat.zero_add]
      by_cases h : 0 <
          (swapWorkerRun codec dryRun syncSize hasCh (store.queryKeys ns) store ns).errored
      · simp [h]
      · simp [h]

/-- C9: when the backup-file scanner hits a parse error while the
reversal engine itself reported no error, `Migration.Revert` returns
the stale (nil) outer error variable instead of the scan error: the
call reports success and the completion steps never run, discarding the
true cause of the failure. -/
theorem c9_scan_error_discarded (codec : Codec) (syncSize : Nat) (lines : List DsKey)
    (store : DStore)
    (hscan : (parseBackupLines codec lines).2 = true)
    (hok : (CidSwapperRevert syncSize [] false store
      (parseBackupLines codec lines).1).errMsg = none) :
    (migrationRevertModel codec syncSize lines store).1 = none ∧
    (migrationRevertModel codec syncSize lines store).2.1 = false := by
  simp [migrationRevertModel, hok, hscan]

/-- Witness for C9 at a concrete input: a backup line that does not
parse, over an empty store. -/
theorem c9_scan_error_discarded_witness :
    (migrationRevertModel exCodec 1 [["blocks", "z"]] ⟨[], []⟩).1 = none ∧
    (migrationRevertModel exCodec 1 [["blocks", "z"]] ⟨[], []⟩).2.1 = false :=
  c9_scan_error_discarded exCodec 1 [["blocks", "z"]] ⟨[], []⟩ (by decide) (by decide)

/-- C2: per-key classification in the swap worker: a key whose final
segment does not decode is skipped untouched with no error counted; a
key decoding to a version-0 CID is skipped; otherwise the candidate new
key is the old key's parent namespace with the key-codec encoding of
the raw multihash appended, and the worker swaps exactly that key. -/
theorem c2_classification (codec : Codec) (dryRun : Bool) (syncSize : Nat)
    (hasCh : Bool) (st : WorkerLoopState) (k : DsKey) :
    (codec.dsKeyToCid k.baseNamespace = none →
      swapStep codec dryRun syncSize hasCh st (.ok k) = st) ∧
    (∀ c, codec.dsKeyToCid k.baseNamespace = some c → c.version = 0 →
      swapStep codec dryRun syncSize hasCh st (.ok k) = st) ∧
    (∀ c, codec.dsKeyToCid k.baseNamespace = some c → c.version ≠ 0 →
      candidateNewKey codec k = some (k.parent.child (codec.multihashToDsKey c.hash)) ∧
      swapStep codec false syncSize hasCh st (.ok k) =
        match SwapWorker.swap syncSize st.sw k
            (k.parent.child (codec.multihashToDsKey c.hash)) with
        | (sw1, some _) => { st with sw := sw1, errored := st.errored + 1 }
        | (sw1, none) =>
          { st with
            sw := sw1,
            notifs := if hasCh then
                st.notifs ++ [⟨k, k.parent.child (codec.multihashToDsKey c.hash)⟩]
              else st.notifs }) := by
  refine ⟨fun h => swapStep_skip _ _ _ _ _ _ h,
    fun c h h0 => swapStep_skipV0 _ _ _ _ _ _ _ h h0,
    fun c h h0 => ⟨by simp [candidateNewKey, h, h0], swapStep_realV1 _ _ _ _ _ _ h h0⟩⟩

/-- Witness for C2 at concrete inputs: an undecodable key, a version-0
key, and a version-1 key. -/
theorem c2_classification_witness :
    (swapStep exCodec false 1 true exState0 (.ok ["blocks", "z"]) = exState0) ∧
    (swapStep exCodec false 1 true exState0 (.ok ["blocks", "m"]) = exState0) ∧
    candidateNewKey exCodec ["blocks", "a"] =
      some (DsKey.child (DsKey.parent ["blocks", "a"]) (exCodec.multihashToDsKey 5)) :=
  ⟨(c2_classification exCodec false 1 true exState0 ["blocks", "z"]).1 (by decide),
   (c2_classification exCodec false 1 true exState0 ["blocks", "m"]).2.1 ⟨0, 5⟩
     (by decide) rfl,
   ((c2_classification exCodec false 1 true exState0 ["blocks", "a"]).2.2 ⟨1, 5⟩
     (by decide) (by decide)).1⟩

/-- C10: in the reversal collapse path, a failed `Put` of the
already-restored value is counted as an error but processing continues:
the reverted counter is still incremented, the notification is still
emitted, and the de-duplication map still records the new key as
reverted to this record's old key. -/
theorem c10_collapse_putfail_continues (syncSize : Nat) (st : UnswapState) (r : Swap)
    (prior : DsKey) (v : Value)
    (hget : st.swker.store.get r.new = none)
    (hmap : alookup st.unswappedMap r.new = some prior)
    (hprior : st.swker.store.get prior = some v)
    (hfail : r.old ∈ st.swker.store.failPut) :
    (unswapStep syncSize true st r).errored = st.errored + 1 ∧
    (unswapStep syncSize true st r).swker.swapped = st.swker.swapped + 1 ∧
    (unswapStep syncSize true st r).notifs = st.notifs ++ [⟨r.new, r.old⟩] ∧
    alookup (unswapStep syncSize true st r).unswappedMap r.new = some r.old := by
  have hswap := swap_eval_notfound syncSize st.swker r.new r.old hget
  rw [unswapStep_nf_restore_putfail syncSize true st r _ prior v hswap hmap
    (by simpa using hprior) (by simpa using hfail)]
  simp [alookup_aput_self]

/-- Witness for C10 at a concrete input. -/
theorem c10_collapse_putfail_continues_witness :
    (unswapStep 100 true exUnswap10 ⟨["blocks", "b"], ["blocks", "m"]⟩).errored =
      exUnswap10.errored + 1 ∧
    (unswapStep 100 true exUnswap10 ⟨["blocks", "b"], ["blocks", "m"]⟩).swker.swapped =
      exUnswap10.swker.swapped + 1 ∧
    (unswapStep 100 true exUnswap10 ⟨["blocks", "b"], ["blocks", "m"]⟩).notifs =
      exUnswap10.notifs ++ [⟨["blocks", "m"], ["blocks", "b"]⟩] ∧
    alookup (unswapStep 100 true exUnswap10
      ⟨["blocks", "b"], ["blocks", "m"]⟩).unswappedMap ["blocks", "m"] =
      some ["blocks", "b"] :=
  c10_collapse_putfail_continues 100 exUnswap10 ⟨["blocks", "b"], ["blocks", "m"]⟩
    ["blocks", "a"] [7] (by decide) (by decide) (by decide) (by decide)

end Mg8

namespace Mg8

theorem swap_pres (syncSize : Nat) (sw : SwapWorker) (old new : DsKey) :
    (sw.swap syncSize old new).1.syncNs = sw.syncNs ∧
    (sw.swap syncSize old new).1.store.failPut = sw.store.failPut := by
  cases hget : sw.store.get old with
  | none => simp [swap_eval_notfound _ _ _ _ hget]
  | some v =>
    by_cases hfail : new ∈ sw.store.failPut
    · simp [swap_eval_putfail _ _ _ _ _ hget hfail]
    · by_cases hth : syncSize ≤ sw.curSyncSize + v.length
      · simp [swap_eval_flush _ _ _ _ _ hget hfail hth, delAll_failPut, DStore.put]
      · simp [swap_eval_noflush syncSize sw old new v hget hfail (by omega), DStore.put]

theorem swapStep_syncNs (codec : Codec) (dryRun : Bool) (syncSize : Nat) (hasCh : Bool)
    (st : WorkerLoopState) (res : QueryResult) :
    (swapStep codec dryRun syncSize hasCh st res).sw.syncNs = st.sw.syncNs := by
  cases res with
  | error e => rw [swapStep_queryErr]
  | ok k =>
    cases hdec : codec.dsKeyToCid k.baseNamespace with
    | none => rw [swapStep_skip _ _ _ _ _ _ hdec]
    | some c =>
      by_cases h0 : c.version = 0
      · rw [swapStep_skipV0 _ _ _ _ _ _ _ hdec h0]
      · cases dryRun with
        | true =>
          rw [swapStep_dryV1 _ _ _ _ _ _ hdec h0]
        | false =>
          rw [swapStep_realV1 _ _ _ _ _ _ hdec h0]
          have hp := (swap_pres syncSize st.sw k
            (k.parent.child (codec.multihashToDsKey c.hash))).1
          rcases hsw : SwapWorker.swap syncSize st.sw k
            (k.parent.child (codec.multihashToDsKey c.hash)) with ⟨sw1, err⟩
          rw [hsw] at hp
          cases err <;> simpa using hp

theorem swapWorkerLoop_syncNs (codec : Codec) (dryRun : Bool) (syncSize : Nat)
    (hasCh : Bool) (results : List QueryResult) (store : DStore) (ns : DsKey) :
    (swapWorkerLoop codec dryRun syncSize hasCh results store ns).sw.syncNs = ns := by
  have h : ∀ st : WorkerLoopState,
      (results.foldl (swapStep codec dryRun syncSize hasCh) st).sw.syncNs =
        st.sw.syncNs := by
    induction results with
    | nil => intro st; rfl
    | cons r rest ih =>
      intro st
      rw [List.foldl_cons, ih, swapStep_syncNs]
  exact h _

/-- C4 counterexample: with threshold 1, the swap of `blocks/a` crosses
the threshold and triggers the flush, but the flush the worker performs
ends with the delete: no second durability sync follows inside the
triggered flush, contradicting the claimed three-step flush. -/
theorem c4_counterexample :
    (SwapWorker.swap 1 exWorker ["blocks", "a"] ["blocks", "m"]).1.trace =
      [StoreOp.get ["blocks", "a"], StoreOp.put ["blocks", "m"] [7],
        StoreOp.sync ["blocks"], StoreOp.delete ["blocks", "a"]] ∧
    (SwapWorker.swap 1 exWorker ["blocks", "a"] ["blocks", "m"]).1.trace.getLast? ≠
      some (StoreOp.sync ["blocks"]) := by decide

/-- C4 (amended): a threshold-crossing swap flushes by syncing the
namespace and then deleting every pending old key, resetting the byte
counter and the pending list; the deletions are synced again only by
the unconditional end-of-run flush, which performs sync, pending
deletions, and a second sync. -/
theorem c4_amended_flush_shape :
    (∀ (syncSize : Nat) (sw : SwapWorker) (old new : DsKey) (v : Value),
      sw.store.get old = some v → new ∉ sw.store.failPut →
      syncSize ≤ sw.curSyncSize + v.length →
      (sw.swap syncSize old new).1.trace =
        sw.trace ++ [StoreOp.get old, StoreOp.put new v, StoreOp.sync sw.syncNs]
          ++ (sw.toDelete ++ [old]).map StoreOp.delete ∧
      (sw.swap syncSize old new).1.curSyncSize = 0 ∧
      (sw.swap syncSize old new).1.toDelete = []) ∧
    (∀ (codec : Codec) (syncSize : Nat) (hasCh : Bool) (results : List QueryResult)
      (store : DStore) (ns : DsKey),
      (swapWorkerRun codec false syncSize hasCh results store ns).sw.trace =
        (swapWorkerLoop codec false syncSize hasCh results store ns).sw.trace
          ++ [StoreOp.sync ns]
          ++ ((swapWorkerLoop codec false syncSize hasCh results store ns).sw.toDelete.map
              StoreOp.delete)
          ++ [StoreOp.sync ns]) := by
  constructor
  · intro syncSize sw old new v hget hok hth
    rw [swap_eval_flush _ _ _ _ _ hget hok hth]
    exact ⟨rfl, rfl, rfl⟩
  · intro codec syncSize hasCh results store ns
    show (swapWorkerLoop codec false syncSize hasCh results store
      ns).sw.syncAndDelete.syncOp.trace = _
    rw [syncAndDelete_eq]
    simp [SwapWorker.syncOp, swapWorkerLoop_syncNs]

/-- Witness for C4 (amended) at a concrete input. -/
theorem c4_amended_flush_shape_witness :
    (SwapWorker.swap 1 exWorker ["blocks", "a"] ["blocks", "m"]).1.trace =
      exWorker.trace ++ [StoreOp.get ["blocks", "a"], StoreOp.put ["blocks", "m"] [7],
        StoreOp.sync exWorker.syncNs]
        ++ (exWorker.toDelete ++ [["blocks", "a"]]).map StoreOp.delete ∧
    (SwapWorker.swap 1 exWorker ["blocks", "a"] ["blocks", "m"]).1.curSyncSize = 0 ∧
    (SwapWorker.swap 1 exWorker ["blocks", "a"] ["blocks", "m"]).1.toDelete = [] :=
  c4_amended_flush_shape.1 1 exWorker ["blocks", "a"] ["blocks", "m"] [7]
    (by decide) (by decide) (by decide)

/-- C7 counterexample: two records sharing the multihash key
`blocks/m` both revert successfully (no error is counted), yet the
final de-duplication map entry for `blocks/m` denotes the second old
key: the first successful restoration's entry is replaced, so the first
success does not win. -/
theorem c7_counterexample :
    (unswapWorkerRun 1 true
      [⟨["blocks", "a"], ["blocks", "m"]⟩, ⟨["blocks", "b"], ["blocks", "m"]⟩]
      ⟨[(["blocks", "m"], [9])], []⟩ ["blocks"]).errored = 0 ∧
    alookup (unswapWorkerRun 1 true
      [⟨["blocks", "a"], ["blocks", "m"]⟩, ⟨["blocks", "b"], ["blocks", "m"]⟩]
      ⟨[(["blocks", "m"], [9])], []⟩ ["blocks"]).unswappedMap ["blocks", "m"] =
      some ["blocks", "b"] ∧
    (["blocks", "b"] : DsKey) ≠ ["blocks", "a"] := by decide

/-- C7 (amended): the de-duplication map entry for a new key is
overwritten after every restoration that completes the record's
processing — in the direct path and in the collapse path alike — so the
most recent successful restoration wins, not the first. -/
theorem c7_amended_last_success_wins :
    (∀ (syncSize : Nat) (hasCh : Bool) (st : UnswapState) (r : Swap) (w1 : SwapWorker),
      SwapWorker.swap syncSize st.swker r.new r.old = (w1, none) →
      (unswapStep syncSize hasCh st r).unswappedMap = aput st.unswappedMap r.new r.old ∧
      alookup (unswapStep syncSize hasCh st r).unswappedMap r.new = some r.old) ∧
    (∀ (syncSize : Nat) (hasCh : Bool) (st : UnswapState) (r : Swap) (w1 : SwapWorker)
      (prior : DsKey) (v : Value),
      SwapWorker.swap syncSize st.swker r.new r.old = (w1, some .notFound) →
      alookup st.unswappedMap r.new = some prior →
      w1.store.get prior = some v → r.old ∉ w1.store.failPut →
      (unswapStep syncSize hasCh st r).unswappedMap = aput st.unswappedMap r.new r.old ∧
      alookup (unswapStep syncSize hasCh st r).unswappedMap r.new = some r.old) := by
  constructor
  · intro syncSize hasCh st r w1 hswap
    rw [unswapStep_ok _ _ _ _ _ hswap]
    exact ⟨rfl, alookup_aput_self _ _ _⟩
  · intro syncSize hasCh st r w1 prior v hswap hmap hget hok
    rw [unswapStep_nf_restore _ _ _ _ _ _ _ hswap hmap hget hok]
    exact ⟨rfl, alookup_aput_self _ _ _⟩

/-- Witness for C7 (amended): a successful direct restoration
overwrites an existing map entry for the same new key. -/
theorem c7_amended_last_success_wins_witness :
    (unswapStep 100 true exUnswap7 ⟨["blocks", "b"], ["blocks", "m"]⟩).unswappedMap =
      aput exUnswap7.unswappedMap ["blocks", "m"] ["blocks", "b"] ∧
    alookup (unswapStep 100 true exUnswap7
      ⟨["blocks", "b"], ["blocks", "m"]⟩).unswappedMap ["blocks", "m"] =
      some ["blocks", "b"] :=
  c7_amended_last_success_wins.1 100 true exUnswap7 ⟨["blocks", "b"], ["blocks", "m"]⟩
    (SwapWorker.swap 100 exUnswap7.swker ["blocks", "m"] ["blocks", "b"]).1 (by decide)

end Mg8

namespace Mg8

theorem TraceOK_append (codec : Codec) (ns : DsKey) (tr ext : List StoreOp)
    (h : TraceOK codec ns tr)
    (hext : ∀ op ∈ ext, ∀ k, op ≠ StoreOp.delete k) :
    TraceOK codec ns (tr ++ ext) := by
  intro d k hd
  by_cases hlt : d < tr.length
  · rw [List.getElem?_append_left hlt] at hd
    obtain ⟨p, s, nk, v, hps, hsd, hc, hp, hs⟩ := h d k hd
    have hp2 : p < tr.length := (List.getElem?_eq_some.mp hp).1
    have hs2 : s < tr.length := (List.getElem?_eq_some.mp hs).1
    exact ⟨p, s, nk, v, hps, hsd, hc,
      by rw [List.getElem?_append_left hp2]; exact hp,
      by rw [List.getElem?_append_left hs2]; exact hs⟩
  · rw [List.getElem?_append_right (by omega)] at hd
    have hmem : StoreOp.delete k ∈ ext := List.mem_iff_getElem?.mpr ⟨_, hd⟩
    exact absurd rfl (hext _ hmem k)

theorem PendOK_append (codec : Codec) (tr ext : List StoreOp) (pend : List DsKey)
    (h : PendOK codec tr pend) : PendOK codec (tr ++ ext) pend := by
  intro k hk
  obtain ⟨p, nk, v, hc, hp⟩ := h k hk
  have hp2 : p < tr.length := (List.getElem?_eq_some.mp hp).1
  exact ⟨p, nk, v, hc, by rw [List.getElem?_append_left hp2]; exact hp⟩

theorem TraceOK_flush (codec : Codec) (ns : DsKey) (tr : List StoreOp)
    (pend : List DsKey) (h : TraceOK codec ns tr) (hpend : PendOK codec tr pend) :
    TraceOK codec ns (tr ++ [StoreOp.sync ns] ++ pend.map StoreOp.delete) := by
  intro d k hd
  by_cases h1 : d < tr.length
  · rw [List.getElem?_append_left (by simp; omega), List.getElem?_append_left h1] at hd
    obtain ⟨p, s, nk, v, hps, hsd, hc, hp, hs⟩ := h d k hd
    have hp2 : p < tr.length := (List.getElem?_eq_some.mp hp).1
    have hs2 : s < tr.length := (List.getElem?_eq_some.mp hs).1
    exact ⟨p, s, nk, v, hps, hsd, hc,
      by rw [List.getElem?_append_left (show p < (tr ++ [StoreOp.sync ns]).length by
          simp; omega), List.getElem?_append_left hp2]; exact hp,
      by rw [List.getElem?_append_left (show s < (tr ++ [StoreOp.sync ns]).length by
          simp; omega), List.getElem?_append_left hs2]; exact hs⟩
  · by_cases h2 : d = tr.length
    · subst h2
      rw [List.getElem?_append_left (by simp),
        List.getElem?_concat_length] at hd
      simp at hd
    · have hge : (tr ++ [StoreOp.sync ns]).length ≤ d := by simp; omega
      rw [List.getElem?_append_right hge] at hd
      have hmem : StoreOp.delete k ∈ pend.map StoreOp.delete :=
        List.mem_iff_getElem?.mpr ⟨_, hd⟩
      have hk : k ∈ pend := by
        rcases List.mem_map.mp hmem with ⟨k2, hk2, he⟩
        cases he
        exact hk2
      obtain ⟨p, nk, v, hc, hp⟩ := hpend k hk
      have hp2 : p < tr.length := (List.getElem?_eq_some.mp hp).1
      refine ⟨p, tr.length, nk, v, hp2, by simp at hge; omega, hc, ?_, ?_⟩
      · rw [List.getElem?_append_left (show p < (tr ++ [StoreOp.sync ns]).length by
          simp; omega), List.getElem?_append_left hp2]
        exact hp
      · rw [List.getElem?_append_left (show tr.length < (tr ++ [StoreOp.sync ns]).length by
          simp), List.getElem?_concat_length]

theorem pend_put_position (codec : Codec) (tr : List StoreOp) (pend : List DsKey)
    (old nk : DsKey) (v : Value) (hc : candidateNewKey codec old = some nk)
    (hpend : PendOK codec tr pend) :
    PendOK codec (tr ++ [StoreOp.get old, StoreOp.put nk v]) (pend ++ [old]) := by
  intro k hk
  rcases List.mem_append.mp hk with hk | hk
  · exact PendOK_append codec tr _ pend hpend k hk
  · have hk2 : k = old := by simpa using hk
    subst hk2
    refine ⟨tr.length + 1, nk, v, hc, ?_⟩
    rw [List.getElem?_append_right (by omega)]
    simp

theorem swap_traceOK (codec : Codec) (ns : DsKey) (syncSize : Nat) (sw : SwapWorker)
    (old new : DsKey) (hns : sw.syncNs = ns)
    (hcand : candidateNewKey codec old = some new)
    (ht : TraceOK codec ns sw.trace) (hpend : PendOK codec sw.trace sw.toDelete) :
    TraceOK codec ns (sw.swap syncSize old new).1.trace ∧
    PendOK codec (sw.swap syncSize old new).1.trace (sw.swap syncSize old new).1.toDelete := by
  cases hget : sw.store.get old with
  | none =>
    rw [swap_eval_notfound _ _ _ _ hget]
    exact ⟨TraceOK_append codec ns _ _ ht (by intro op hop k; simp at hop; simp [hop]),
      PendOK_append codec _ _ _ hpend⟩
  | some v =>
    by_cases hfail : new ∈ sw.store.failPut
    · rw [swap_eval_putfail _ _ _ _ _ hget hfail]
      refine ⟨TraceOK_append codec ns _ _ ht ?_, PendOK_append codec _ _ _ hpend⟩
      intro op hop k
      have h2 : op = StoreOp.get old ∨ op = StoreOp.put new v := by simpa using hop
      rcases h2 with h | h <;> simp [h]
    · by_cases hth : syncSize ≤ sw.curSyncSize + v.length
      · rw [swap_eval_flush _ _ _ _ _ hget hfail hth]
        have heq : sw.trace ++ [StoreOp.get old, StoreOp.put new v, StoreOp.sync sw.syncNs]
            ++ (sw.toDelete ++ [old]).map StoreOp.delete =
            (sw.trace ++ [StoreOp.get old, StoreOp.put new v]) ++ [StoreOp.sync ns]
              ++ (sw.toDelete ++ [old]).map StoreOp.delete := by
          simp [hns]
        constructor
        · show TraceOK codec ns _
          rw [heq]
          refine TraceOK_flush codec ns _ _ ?_ ?_
          · refine TraceOK_append codec ns _ _ ht ?_
            intro op hop k
            have h2 : op = StoreOp.get old ∨ op = StoreOp.put new v := by simpa using hop
            rcases h2 with h | h <;> simp [h]
          · exact pend_put_position codec _ _ _ _ _ hcand hpend
        · intro k hk
          simp at hk
      · rw [swap_eval_noflush syncSize sw old new v hget hfail (by omega)]
        refine ⟨TraceOK_append codec ns _ _ ht ?_, ?_⟩
        · intro op hop k
          have h2 : op = StoreOp.get old ∨ op = StoreOp.put new v := by simpa using hop
          rcases h2 with h | h <;> simp [h]
        · exact pend_put_position codec _ _ _ _ _ hcand hpend

theorem swapStep_traceOK (codec : Codec) (ns : DsKey) (syncSize : Nat) (hasCh : Bool)
    (st : WorkerLoopState) (res : QueryResult) (hns : st.sw.syncNs = ns)
    (ht : TraceOK codec ns st.sw.trace)
    (hpend : PendOK codec st.sw.trace st.sw.toDelete) :
    TraceOK codec ns (swapStep codec false syncSize hasCh st res).sw.trace ∧
    PendOK codec (swapStep codec false syncSize hasCh st res).sw.trace
      (swapStep codec false syncSize hasCh st res).sw.toDelete := by
  cases res with
  | error e => rw [swapStep_queryErr]; exact ⟨ht, hpend⟩
  | ok k =>
    cases hdec : codec.dsKeyToCid k.baseNamespace with
    | none => rw [swapStep_skip _ _ _ _ _ _ hdec]; exact ⟨ht, hpend⟩
    | some c =>
      by_cases h0 : c.version = 0
      · rw [swapStep_skipV0 _ _ _ _ _ _ _ hdec h0]; exact ⟨ht, hpend⟩
      · rw [swapStep_realV1 _ _ _ _ _ _ hdec h0]
        have hcand : candidateNewKey codec k =
            some (k.parent.child (codec.multihashToDsKey c.hash)) := by
          simp [candidateNewKey, hdec, h0]
        have hres := swap_traceOK codec ns syncSize st.sw k
          (k.parent.child (codec.multihashToDsKey c.hash)) hns hcand ht hpend
        rcases hsw : SwapWorker.swap syncSize st.sw k
          (k.parent.child (codec.multihashToDsKey c.hash)) with ⟨sw1, err⟩
        rw [hsw] at hres
        cases err <;> simpa using hres

theorem swapWorkerLoop_traceOK (codec : Codec) (syncSize : Nat) (hasCh : Bool)
    (results : List QueryResult) (store : DStore) (ns : DsKey) :
    TraceOK codec ns (swapWorkerLoop codec false syncSize hasCh results store ns).sw.trace ∧
    PendOK codec (swapWorkerLoop codec false syncSize hasCh results store ns).sw.trace
      (swapWorkerLoop codec false syncSize hasCh results store ns).sw.toDelete := by
  have main : ∀ st : WorkerLoopState, st.sw.syncNs = ns →
      TraceOK codec ns st.sw.trace → PendOK codec st.sw.trace st.sw.toDelete →
      TraceOK codec ns
        (results.foldl (swapStep codec false syncSize hasCh) st).sw.trace ∧
      PendOK codec (results.foldl (swapStep codec false syncSize hasCh) st).sw.trace
        (results.foldl (swapStep codec false syncSize hasCh) st).sw.toDelete := by
    induction results with
    | nil => intro st _ ht hpend; exact ⟨ht, hpend⟩
    | cons r rest ih =>
      intro st hns ht hpend
      rw [List.foldl_cons]
      have hst := swapStep_traceOK codec ns syncSize hasCh st r hns ht hpend
      exact ih _ (by rw [swapStep_syncNs]; exact hns) hst.1 hst.2
  exact main _ rfl (by intro d k hd; simp at hd) (by intro k hk; simp at hk)

theorem swap_err_toDelete (syncSize : Nat) (sw : SwapWorker) (old new : DsKey)
    (e : StoreErr) (h : (sw.swap syncSize old new).2 = some e) :
    (sw.swap syncSize old new).1.toDelete = sw.toDelete := by
  cases hget : sw.store.get old with
  | none => rw [swap_eval_notfound _ _ _ _ hget]
  | some v =>
    by_cases hfail : new ∈ sw.store.failPut
    · rw [swap_eval_putfail _ _ _ _ _ hget hfail]
    · by_cases hth : syncSize ≤ sw.curSyncSize + v.length
      · rw [swap_eval_flush _ _ _ _ _ hget hfail hth] at h
        simp at h
      · rw [swap_eval_noflush syncSize sw old new v hget hfail (by omega)] at h
        simp at h

/-- C3: within one worker, for every delete of an old key appearing in
the operation trace of a (non-dry) swap worker run there are a put of
the key's candidate new key and a sync of the namespace strictly
between the put and the delete; and a key joins the pending-deletion
list only when the swap call succeeded — a failed swap leaves the
pending list untouched. -/
theorem c3_durability_order :
    (∀ (codec : Codec) (syncSize : Nat) (hasCh : Bool) (results : List QueryResult)
      (store : DStore) (ns : DsKey),
      TraceOK codec ns (swapWorkerRun codec false syncSize hasCh results store ns).sw.trace) ∧
    (∀ (syncSize : Nat) (sw : SwapWorker) (old new : DsKey) (e : StoreErr),
      (sw.swap syncSize old new).2 = some e →
      (sw.swap syncSize old new).1.toDelete = sw.toDelete) := by
  constructor
  · intro codec syncSize hasCh results store ns
    obtain ⟨ht, hpend⟩ := swapWorkerLoop_traceOK codec syncSize hasCh results store ns
    have hns := swapWorkerLoop_syncNs codec false syncSize hasCh results store ns
    show TraceOK codec ns
      (swapWorkerLoop codec false syncSize hasCh results store
        ns).sw.syncAndDelete.syncOp.trace
    rw [syncAndDelete_eq]
    simp only [SwapWorker.syncOp]
    rw [hns]
    exact TraceOK_append codec ns _ _ (TraceOK_flush codec ns _ _ ht hpend)
      (by intro op hop k; simp at hop; simp [hop])
  · exact swap_err_toDelete

/-- Witness for C3: a concrete run whose trace deletes `blocks/a` at
index 3, and a concrete failed swap (missing old key). -/
theorem c3_durability_order_witness :
    (∃ (p s : Nat) (nk : DsKey) (v : Value), p < s ∧ s < 3 ∧
      candidateNewKey exCodec ["blocks", "a"] = some nk ∧
      (swapWorkerRun exCodec false 1 true [.ok ["blocks", "a"]]
        ⟨[(["blocks", "a"], [7])], []⟩ ["blocks"]).sw.trace[p]? =
        some (StoreOp.put nk v) ∧
      (swapWorkerRun exCodec false 1 true [.ok ["blocks", "a"]]
        ⟨[(["blocks", "a"], [7])], []⟩ ["blocks"]).sw.trace[s]? =
        some (StoreOp.sync ["blocks"])) ∧
    (SwapWorker.swap 1 exWorker ["blocks", "x"] ["blocks", "m"]).1.toDelete =
      exWorker.toDelete :=
  ⟨c3_durability_order.1 exCodec 1 true [.ok ["blocks", "a"]]
      ⟨[(["blocks", "a"], [7])], []⟩ ["blocks"] 3 ["blocks", "a"] (by decide),
   c3_durability_order.2 1 exWorker ["blocks", "x"] ["blocks", "m"] .notFound (by decide)⟩

end Mg8

namespace Mg8

theorem swapStep_dry_pres (codec : Codec) (syncSize : Nat) (hasCh : Bool)
    (st : WorkerLoopState) (res : QueryResult) :
    (swapStep codec true syncSize hasCh st res).sw.store = st.sw.store ∧
    (swapStep codec true syncSize hasCh st res).sw.trace = st.sw.trace := by
  cases res with
  | error e => rw [swapStep_queryErr]; exact ⟨rfl, rfl⟩
  | ok k =>
    cases hdec : codec.dsKeyToCid k.baseNamespace with
    | none => rw [swapStep_skip _ _ _ _ _ _ hdec]; exact ⟨rfl, rfl⟩
    | some c =>
      by_cases h0 : c.version = 0
      · rw [swapStep_skipV0 _ _ _ _ _ _ _ hdec h0]; exact ⟨rfl, rfl⟩
      · rw [swapStep_dryV1 _ _ _ _ _ _ hdec h0]; exact ⟨rfl, rfl⟩

theorem swapWorkerRun_dry_pres (codec : Codec) (syncSize : Nat) (hasCh : Bool)
    (results : List QueryResult) (store : DStore) (ns : DsKey) :
    (swapWorkerRun codec true syncSize hasCh results store ns).sw.store = store ∧
    (swapWorkerRun codec true syncSize hasCh results store ns).sw.trace = [] := by
  have main : ∀ st : WorkerLoopState,
      (results.foldl (swapStep codec true syncSize hasCh) st).sw.store = st.sw.store ∧
      (results.foldl (swapStep codec true syncSize hasCh) st).sw.trace = st.sw.trace := by
    induction results with
    | nil => intro st; exact ⟨rfl, rfl⟩
    | cons r rest ih =>
      intro st
      rw [List.foldl_cons]
      obtain ⟨h1, h2⟩ := ih (swapStep codec true syncSize hasCh st r)
      obtain ⟨h3, h4⟩ := swapStep_dry_pres codec syncSize hasCh st r
      exact ⟨h1.trans h3, h2.trans h4⟩
  exact main _

theorem dryPhase_store (codec : Codec) (syncSize : Nat) (nss : List DsKey)
    (store : DStore) : (dryPhase codec syncSize nss store).2.1 = store := by
  induction nss generalizing store with
  | nil => rfl
  | cons ns rest ih =>
    have hr : (CidSwapperRun codec syncSize ns true store true).fin.sw.store = store :=
      (swapWorkerRun_dry_pres codec syncSize true (store.queryKeys ns) store ns).1
    by_cases h : (CidSwapperRun codec syncSize ns true store true).errMsg.isSome
    · simp only [dryPhase, h, if_true]
      exact hr
    · simp only [dryPhase, h, if_false]
      rw [ih]
      exact hr

/-- C8: in `Migration.Apply`, every store operation of the real run is
preceded by the backup-log flush, which in turn is preceded by the
buffered log line of every Swap record the dry-run pass emitted; and
the dry-run pass itself leaves the store untouched. -/
theorem c8_log_flushed_before_mutation (codec : Codec) (syncSize : Nat)
    (nss : List DsKey) (store : DStore) :
    (dryPhase codec syncSize nss store).2.1 = store ∧
    (∀ (i : Nat) (op : StoreOp),
      (applyModel codec syncSize nss store).events[i]? = some (.storeEv op) →
      ∃ j : Nat, j < i ∧
        (applyModel codec syncSize nss store).events[j]? = some .logFlush ∧
        ∀ r ∈ (applyModel codec syncSize nss store).records,
          ∃ m : Nat, m < j ∧
            (applyModel codec syncSize nss store).events[m]? = some (.logLine r.old)) := by
  refine ⟨dryPhase_store codec syncSize nss store, ?_⟩
  intro i op hi
  by_cases hf : (dryPhase codec syncSize nss store).2.2
  · exfalso
    have hev : (applyModel codec syncSize nss store).events =
        (dryPhase codec syncSize nss store).1.map (fun s => ApplyEvent.logLine s.old) := by
      simp only [applyModel, hf, if_true]
    rw [hev] at hi
    have hmem : ApplyEvent.storeEv op ∈
        (dryPhase codec syncSize nss store).1.map (fun s => ApplyEvent.logLine s.old) :=
      List.mem_iff_getElem?.mpr ⟨_, hi⟩
    rcases List.mem_map.mp hmem with ⟨s, _, he⟩
    exact ApplyEvent.noConfusion he
  · have hev : (applyModel codec syncSize nss store).events =
        (dryPhase codec syncSize nss store).1.map (fun s => ApplyEvent.logLine s.old)
          ++ [ApplyEvent.logFlush]
          ++ (realPhase codec syncSize nss
              (dryPhase codec syncSize nss store).2.1).1.map ApplyEvent.storeEv := by
      simp [applyModel, hf]
    have hrec : (applyModel codec syncSize nss store).records =
        (dryPhase codec syncSize nss store).1 := by
      simp [applyModel, hf]
    set A := (dryPhase codec syncSize nss store).1.map
      (fun s => ApplyEvent.logLine s.old) with hA
    rw [hev] at hi
    have hgt : A.length < i := by
      by_contra hle
      push_neg at hle
      rcases Nat.lt_or_ge i A.length with hlt | hge
      · rw [List.getElem?_append_left (by simp; omega),
          List.getElem?_append_left hlt] at hi
        have hmem : ApplyEvent.storeEv op ∈ A := List.mem_iff_getElem?.mpr ⟨_, hi⟩
        rcases List.mem_map.mp hmem with ⟨s, _, he⟩
        exact ApplyEvent.noConfusion he
      · have hieq : i = A.length := by omega
        subst hieq
        rw [List.getElem?_append_left (by simp), List.getElem?_concat_length] at hi
        exact ApplyEvent.noConfusion (Option.some.injEq .. ▸ hi)
    refine ⟨A.length, hgt, ?_, ?_⟩
    · rw [hev, List.getElem?_append_left (show A.length < (A ++ [ApplyEvent.logFlush]).length
        by simp), List.getElem?_concat_length]
    · intro r hr
      rw [hrec] at hr
      have hmem : ApplyEvent.logLine r.old ∈ A :=
        hA ▸ List.mem_map.mpr ⟨r, hr, rfl⟩
      obtain ⟨m, hm⟩ := List.mem_iff_getElem?.mp hmem
      have hmlt : m < A.length := (List.getElem?_eq_some.mp hm).1
      refine ⟨m, hmlt, ?_⟩
      rw [hev, List.getElem?_append_left (show m < (A ++ [ApplyEvent.logFlush]).length
        by simp; omega), List.getElem?_append_left hmlt]
      exact hm

end Mg8

namespace Mg8

/-- Witness for C8 at a concrete input: one namespace, one block; the
first real-run store operation sits at index 2, after the log line and
the flush. -/
theorem c8_log_flushed_before_mutation_witness :
    (dryPhase exCodec 1 [["blocks"]] ⟨[(["blocks", "a"], [7])], []⟩).2.1 =
      (⟨[(["blocks", "a"], [7])], []⟩ : DStore) ∧
    ∃ j : Nat, j < 2 ∧
      (applyModel exCodec 1 [["blocks"]]
        ⟨[(["blocks", "a"], [7])], []⟩).events[j]? = some .logFlush ∧
      ∀ r ∈ (applyModel exCodec 1 [["blocks"]] ⟨[(["blocks", "a"], [7])], []⟩).records,
        ∃ m : Nat, m < j ∧
          (applyModel exCodec 1 [["blocks"]]
            ⟨[(["blocks", "a"], [7])], []⟩).events[m]? = some (.logLine r.old) :=
  ⟨(c8_log_flushed_before_mutation exCodec 1 [["blocks"]]
      ⟨[(["blocks", "a"], [7])], []⟩).1,
   (c8_log_flushed_before_mutation exCodec 1 [["blocks"]]
      ⟨[(["blocks", "a"], [7])], []⟩).2 2 (StoreOp.get ["blocks", "a"]) (by decide)⟩

end Mg8

namespace Mg8

theorem baseNamespace_child (p : DsKey) (s : String) :
    DsKey.baseNamespace (p ++ [s]) = s := by
  simp [DsKey.baseNamespace]

theorem parent_child_key (p : DsKey) (s : String) : DsKey.parent (p ++ [s]) = p := by
  simp [DsKey.parent]

theorem child_eq_iff (p : DsKey) (x y : String) : p ++ [x] = p ++ [y] ↔ x = y := by
  constructor
  · intro h
    simpa using List.append_cancel_left h
  · intro h
    rw [h]

theorem swapStep_v1_flush (codec : Codec) (syncSize : Nat) (hasCh : Bool)
    (st : WorkerLoopState) (p : DsKey) (seg m : String) (c : Cid) (v : Value)
    (hdec : codec.dsKeyToCid seg = some c) (h0 : ¬ c.version = 0)
    (hm : codec.multihashToDsKey c.hash = m)
    (hget : st.sw.store.get (p ++ [seg]) = some v)
    (hok : (p ++ [m]) ∉ st.sw.store.failPut)
    (hth : syncSize ≤ st.sw.curSyncSize + v.length) :
    swapStep codec false syncSize hasCh st (.ok (p ++ [seg])) =
      { st with
        sw := { swapped := st.sw.swapped + 1,
                curSyncSize := 0,
                store := delAll (st.sw.store.put (p ++ [m]) v)
                  (st.sw.toDelete ++ [p ++ [seg]]),
                syncNs := st.sw.syncNs,
                toDelete := [],
                trace := st.sw.trace ++ [StoreOp.get (p ++ [seg]),
                    StoreOp.put (p ++ [m]) v, StoreOp.sync st.sw.syncNs]
                  ++ (st.sw.toDelete ++ [p ++ [seg]]).map StoreOp.delete },
        notifs := if hasCh then st.notifs ++ [⟨p ++ [seg], p ++ [m]⟩] else st.notifs } := by
  rw [swapStep_realV1 codec syncSize hasCh st (p ++ [seg]) c
    (by rw [baseNamespace_child]; exact hdec) h0]
  have hk : DsKey.child (DsKey.parent (p ++ [seg])) (codec.multihashToDsKey c.hash) =
      p ++ [m] := by
    rw [parent_child_key, hm, DsKey.child]
  rw [hk, swap_eval_flush syncSize st.sw (p ++ [seg]) (p ++ [m]) v hget hok hth]

end Mg8

namespace Mg8

theorem queryKeys_pair (p : DsKey) (x y : String) (vA vB : Value) :
    DStore.queryKeys ⟨[(p ++ [x], vA), (p ++ [y], vB)], []⟩ p =
      [.ok (p ++ [x]), .ok (p ++ [y])] := by
  have hne : ∀ s : String, (p ++ [s]) ≠ p := by
    intro s he
    have := congrArg List.length he
    simp at this
  have hc : ∀ s : String, (p.isPrefixOf (p ++ [s]) && ((p ++ [s] : DsKey) != p)) = true := by
    intro s
    rw [List.isPrefixOf_iff_prefix.mpr ⟨[s], rfl⟩, bne_iff_ne.mpr (hne s)]
    rfl
  simp [DStore.queryKeys, List.filter_cons, hc x, hc y]

/-- C5: two old keys `A = p/a` and `B = p/b` that both classify to the
same new key `C = p/m` (same multihash `h`, different CID encodings):
the forward run leaves exactly one value at `C` with `A` and `B`
deleted, and the reversal of the two records restores the identical
surviving value at both `A` and `B` with no error counted — the second
restoration, which finds the value missing at `C`, is resolved through
the de-duplication map.  The sync threshold is at most the value sizes,
so the batch flushes eagerly and the collapse path is exercised. -/
theorem c5_collapse_roundtrip (codec : Codec) (syncSize : Nat) (p : DsKey)
    (a b m : String) (h : Nat) (cA cB : Cid) (vA vB : Value)
    (hab : a ≠ b)
    (hda : codec.dsKeyToCid a = some cA) (hva : ¬ cA.version = 0) (hha : cA.hash = h)
    (hdb : codec.dsKeyToCid b = some cB) (hvb : ¬ cB.version = 0) (hhb : cB.hash = h)
    (hm : codec.multihashToDsKey h = m) (hma : m ≠ a) (hmb : m ≠ b)
    (hsa : syncSize ≤ vA.length) (hsb : syncSize ≤ vB.length) :
    (CidSwapperRun codec syncSize p true
      ⟨[(p ++ [a], vA), (p ++ [b], vB)], []⟩ false).errMsg = none ∧
    alookup (CidSwapperRun codec syncSize p true
      ⟨[(p ++ [a], vA), (p ++ [b], vB)], []⟩ false).fin.sw.store.data (p ++ [m]) =
      some vB ∧
    alookup (CidSwapperRun codec syncSize p true
      ⟨[(p ++ [a], vA), (p ++ [b], vB)], []⟩ false).fin.sw.store.data (p ++ [a]) = none ∧
    alookup (CidSwapperRun codec syncSize p true
      ⟨[(p ++ [a], vA), (p ++ [b], vB)], []⟩ false).fin.sw.store.data (p ++ [b]) = none ∧
    (CidSwapperRun codec syncSize p true
      ⟨[(p ++ [a], vA), (p ++ [b], vB)], []⟩ false).fin.notifs =
      [⟨p ++ [a], p ++ [m]⟩, ⟨p ++ [b], p ++ [m]⟩] ∧
    (CidSwapperRevert syncSize p true
      (CidSwapperRun codec syncSize p true
        ⟨[(p ++ [a], vA), (p ++ [b], vB)], []⟩ false).fin.sw.store
      (CidSwapperRun codec syncSize p true
        ⟨[(p ++ [a], vA), (p ++ [b], vB)], []⟩ false).fin.notifs).errMsg = none ∧
    (CidSwapperRevert syncSize p true
      (CidSwapperRun codec syncSize p true
        ⟨[(p ++ [a], vA), (p ++ [b], vB)], []⟩ false).fin.sw.store
      (CidSwapperRun codec syncSize p true
        ⟨[(p ++ [a], vA), (p ++ [b], vB)], []⟩ false).fin.notifs).total = 2 ∧
    alookup (CidSwapperRevert syncSize p true
      (CidSwapperRun codec syncSize p true
        ⟨[(p ++ [a], vA), (p ++ [b], vB)], []⟩ false).fin.sw.store
      (CidSwapperRun codec syncSize p true
        ⟨[(p ++ [a], vA), (p ++ [b], vB)], []⟩ false).fin.notifs).fin.swker.store.data
      (p ++ [a]) = some vB ∧
    alookup (CidSwapperRevert syncSize p true
      (CidSwapperRun codec syncSize p true
        ⟨[(p ++ [a], vA), (p ++ [b], vB)], []⟩ false).fin.sw.store
      (CidSwapperRun codec syncSize p true
        ⟨[(p ++ [a], vA), (p ++ [b], vB)], []⟩ false).fin.notifs).fin.swker.store.data
      (p ++ [b]) = some vB ∧
    alookup (CidSwapperRevert syncSize p true
      (CidSwapperRun codec syncSize p true
        ⟨[(p ++ [a], vA), (p ++ [b], vB)], []⟩ false).fin.sw.store
      (CidSwapperRun codec syncSize p true
        ⟨[(p ++ [a], vA), (p ++ [b], vB)], []⟩ false).fin.notifs).fin.swker.store.data
      (p ++ [m]) = none := by
  have hACne : ¬ (p ++ [a] : DsKey) = p ++ [m] :=
    fun he => hma (((child_eq_iff p a m).mp he).symm)
  have hBCne : ¬ (p ++ [b] : DsKey) = p ++ [m] :=
    fun he => hmb (((child_eq_iff p b m).mp he).symm)
  have hCAne : ¬ (p ++ [m] : DsKey) = p ++ [a] :=
    fun he => hma ((child_eq_iff p m a).mp he)
  have hCBne : ¬ (p ++ [m] : DsKey) = p ++ [b] :=
    fun he => hmb ((child_eq_iff p m b).mp he)
  have hABne : ¬ (p ++ [a] : DsKey) = p ++ [b] :=
    fun he => hab ((child_eq_iff p a b).mp he)
  have hBAne : ¬ (p ++ [b] : DsKey) = p ++ [a] :=
    fun he => hab (((child_eq_iff p b a).mp he).symm)
  have hba : ¬ b = a := fun he => hab he.symm
  have ham : ¬ a = m := fun he => hma he.symm
  have hbm : ¬ b = m := fun he => hmb he.symm
  have hs1 : swapStep codec false syncSize true
      ⟨⟨0, 0, ⟨[(p ++ [a], vA), (p ++ [b], vB)], []⟩, p, [], []⟩, 0, []⟩
      (.ok (p ++ [a])) =
      ⟨⟨1, 0, ⟨[(p ++ [b], vB), (p ++ [m], vA)], []⟩, p, [],
        [StoreOp.get (p ++ [a]), StoreOp.put (p ++ [m]) vA, StoreOp.sync p,
          StoreOp.delete (p ++ [a])]⟩, 0, [⟨p ++ [a], p ++ [m]⟩]⟩ := by
    rw [swapStep_v1_flush codec syncSize true _ p a m cA vA hda hva
      (by rw [hha]; exact hm) (by simp [DStore.get, alookup]) (by simp)
      (by simpa using hsa)]
    simp [DStore.put, DStore.del, delAll, aput, adel, hACne, hBCne, hab, hba, ham,
      hma, hbm, hmb, hABne, hBAne, hCAne, hCBne]
  have hs2 : swapStep codec false syncSize true
      ⟨⟨1, 0, ⟨[(p ++ [b], vB), (p ++ [m], vA)], []⟩, p, [],
        [StoreOp.get (p ++ [a]), StoreOp.put (p ++ [m]) vA, StoreOp.sync p,
          StoreOp.delete (p ++ [a])]⟩, 0, [⟨p ++ [a], p ++ [m]⟩]⟩
      (.ok (p ++ [b])) =
      ⟨⟨2, 0, ⟨[(p ++ [m], vB)], []⟩, p, [],
        [StoreOp.get (p ++ [a]), StoreOp.put (p ++ [m]) vA, StoreOp.sync p,
          StoreOp.delete (p ++ [a]), StoreOp.get (p ++ [b]),
          StoreOp.put (p ++ [m]) vB, StoreOp.sync p, StoreOp.delete (p ++ [b])]⟩,
        0, [⟨p ++ [a], p ++ [m]⟩, ⟨p ++ [b], p ++ [m]⟩]⟩ := by
    rw [swapStep_v1_flush codec syncSize true _ p b m cB vB hdb hvb
      (by rw [hhb]; exact hm) (by simp [DStore.get, alookup, hBAne, hba]) (by simp)
      (by simpa using hsb)]
    simp [DStore.put, DStore.del, delAll, aput, adel, hBCne, hBAne, hCBne, hab, hba,
      ham, hma, hbm, hmb, hABne, hACne, hCAne]
  have hfwd : CidSwapperRun codec syncSize p true
      ⟨[(p ++ [a], vA), (p ++ [b], vB)], []⟩ false =
      ⟨2, none,
        ⟨⟨2, 0, ⟨[(p ++ [m], vB)], []⟩, p, [],
          [StoreOp.get (p ++ [a]), StoreOp.put (p ++ [m]) vA, StoreOp.sync p,
            StoreOp.delete (p ++ [a]), StoreOp.get (p ++ [b]),
            StoreOp.put (p ++ [m]) vB, StoreOp.sync p, StoreOp.delete (p ++ [b]),
            StoreOp.sync p, StoreOp.sync p]⟩,
          0, [⟨p ++ [a], p ++ [m]⟩, ⟨p ++ [b], p ++ [m]⟩]⟩⟩ := by
    simp only [CidSwapperRun, queryKeys_pair, swapWorkerRun, swapWorkerLoop,
      List.foldl_cons, List.foldl_nil]
    rw [hs1, hs2]
    rw [syncAndDelete_eq]
    simp [SwapWorker.syncOp, delAll, runWorkers, RunResult.mk.injEq]
  have hsw1 := swap_eval_flush syncSize
    ⟨0, 0, ⟨[(p ++ [m], vB)], []⟩, p, [], []⟩ (p ++ [m]) (p ++ [a]) vB
    (by simp [DStore.get, alookup]) (by simp) (by simpa using hsb)
  have hr1 : unswapStep syncSize true
      ⟨⟨0, 0, ⟨[(p ++ [m], vB)], []⟩, p, [], []⟩, 0, [], []⟩
      ⟨p ++ [a], p ++ [m]⟩ =
      ⟨⟨1, 0, ⟨[(p ++ [a], vB)], []⟩, p, [],
        [StoreOp.get (p ++ [m]), StoreOp.put (p ++ [a]) vB, StoreOp.sync p,
          StoreOp.delete (p ++ [m])]⟩,
        0, [(p ++ [m], p ++ [a])], [⟨p ++ [m], p ++ [a]⟩]⟩ := by
    rw [unswapStep_ok syncSize true _ _ _ hsw1]
    simp [aput, DStore.put, DStore.del, delAll, adel, hCAne, hACne, hab, hba, ham,
      hma, hbm, hmb]
  have hsw2 := swap_eval_notfound syncSize
    ⟨1, 0, ⟨[(p ++ [a], vB)], []⟩, p, [],
      [StoreOp.get (p ++ [m]), StoreOp.put (p ++ [a]) vB, StoreOp.sync p,
        StoreOp.delete (p ++ [m])]⟩ (p ++ [m]) (p ++ [b])
    (by simp [DStore.get, alookup, hCAne, hma])
  have hr2 : unswapStep syncSize true
      ⟨⟨1, 0, ⟨[(p ++ [a], vB)], []⟩, p, [],
        [StoreOp.get (p ++ [m]), StoreOp.put (p ++ [a]) vB, StoreOp.sync p,
          StoreOp.delete (p ++ [m])]⟩,
        0, [(p ++ [m], p ++ [a])], [⟨p ++ [m], p ++ [a]⟩]⟩
      ⟨p ++ [b], p ++ [m]⟩ =
      ⟨⟨2, 0, ⟨[(p ++ [a], vB), (p ++ [b], vB)], []⟩, p, [],
        [StoreOp.get (p ++ [m]), StoreOp.put (p ++ [a]) vB, StoreOp.sync p,
          StoreOp.delete (p ++ [m]), StoreOp.get (p ++ [m]), StoreOp.sync p,
          StoreOp.get (p ++ [a]), StoreOp.put (p ++ [b]) vB]⟩,
        0, [(p ++ [m], p ++ [b])], [⟨p ++ [m], p ++ [a]⟩, ⟨p ++ [m], p ++ [b]⟩]⟩ := by
    rw [unswapStep_nf_restore syncSize true _ _ _ (p ++ [a]) vB hsw2
      (by simp [alookup]) (by simp [DStore.get, alookup, hABne, hab])
      (by simp)]
    simp [aput, DStore.put, hABne, hab, hba, ham, hma, hbm, hmb]
  have hrev : CidSwapperRevert syncSize p true ⟨[(p ++ [m], vB)], []⟩
      [⟨p ++ [a], p ++ [m]⟩, ⟨p ++ [b], p ++ [m]⟩] =
      ⟨2, none,
        ⟨⟨2, 0, ⟨[(p ++ [a], vB), (p ++ [b], vB)], []⟩, p, [],
          [StoreOp.get (p ++ [m]), StoreOp.put (p ++ [a]) vB, StoreOp.sync p,
            StoreOp.delete (p ++ [m]), StoreOp.get (p ++ [m]), StoreOp.sync p,
            StoreOp.get (p ++ [a]), StoreOp.put (p ++ [b]) vB, StoreOp.sync p,
            StoreOp.sync p]⟩,
          0, [(p ++ [m], p ++ [b])], [⟨p ++ [m], p ++ [a]⟩, ⟨p ++ [m], p ++ [b]⟩]⟩⟩ := by
    simp only [CidSwapperRevert, unswapWorkerRun, List.foldl_cons, List.foldl_nil]
    rw [hr1, hr2]
    rw [syncAndDelete_eq]
    simp [SwapWorker.syncOp, delAll, runWorkers, RevertResult.mk.injEq]
  rw [hfwd]
  refine ⟨rfl, ?_, ?_, ?_, rfl, ?_⟩
  · simp [alookup]
  · simp [alookup, hACne, ham]
  · simp [alookup, hBCne, hbm]
  · rw [show (⟨2, none,
        ⟨⟨2, 0, ⟨[(p ++ [m], vB)], []⟩, p, [],
          [StoreOp.get (p ++ [a]), StoreOp.put (p ++ [m]) vA, StoreOp.sync p,
            StoreOp.delete (p ++ [a]), StoreOp.get (p ++ [b]),
            StoreOp.put (p ++ [m]) vB, StoreOp.sync p, StoreOp.delete (p ++ [b]),
            StoreOp.sync p, StoreOp.sync p]⟩,
          0, [⟨p ++ [a], p ++ [m]⟩, ⟨p ++ [b], p ++ [m]⟩]⟩⟩ : RunResult).fin.sw.store =
      (⟨[(p ++ [m], vB)], []⟩ : DStore) from rfl]
    rw [show (⟨2, none,
        ⟨⟨2, 0, ⟨[(p ++ [m], vB)], []⟩, p, [],
          [StoreOp.get (p ++ [a]), StoreOp.put (p ++ [m]) vA, StoreOp.sync p,
            StoreOp.delete (p ++ [a]), StoreOp.get (p ++ [b]),
            StoreOp.put (p ++ [m]) vB, StoreOp.sync p, StoreOp.delete (p ++ [b]),
            StoreOp.sync p, StoreOp.sync p]⟩,
          0, [⟨p ++ [a], p ++ [m]⟩, ⟨p ++ [b], p ++ [m]⟩]⟩⟩ : RunResult).fin.notifs =
      [⟨p ++ [a], p ++ [m]⟩, ⟨p ++ [b], p ++ [m]⟩] from rfl]
    rw [hrev]
    refine ⟨rfl, rfl, ?_, ?_, ?_⟩
    · simp [alookup]
    · simp [alookup, hBAne, hba]
    · simp [alookup, hCAne, hCBne, hma, hmb]

end Mg8

namespace Mg8

/-- Witness for C5 at a concrete input: `blocks/a` and `blocks/b` both
hash to 5, whose multihash segment is "m"; threshold 1 forces eager
flushes so the second reversal goes through the de-duplication map. -/
theorem c5_collapse_roundtrip_witness :
    alookup (CidSwapperRevert 1 ["blocks"] true
      (CidSwapperRun exCodec 1 ["blocks"] true
        ⟨[(["blocks", "a"], [7]), (["blocks", "b"], [9])], []⟩ false).fin.sw.store
      (CidSwapperRun exCodec 1 ["blocks"] true
        ⟨[(["blocks", "a"], [7]), (["blocks", "b"], [9])], []⟩
        false).fin.notifs).fin.swker.store.data ["blocks", "a"] = some [9] :=
  (c5_collapse_roundtrip exCodec 1 ["blocks"] "a" "b" "m" 5 ⟨1, 5⟩ ⟨2, 5⟩ [7] [9]
    (by decide) (by decide) (by decide) rfl (by decide) (by decide) rfl rfl
    (by decide) (by decide) (by decide) (by decide)).2.2.2.2.2.2.2.1

end Mg8

namespace Mg8

/-- C1 counterexample: the store holds version-1 keys `blocks/a`,
`blocks/b`, `blocks/c` and a version-0 key `blocks/m`, where "m" is
exactly the multihash segment of `blocks/a`'s CID and where `blocks/b`
and `blocks/c` classify to the same new key while holding different
values.  The preconditions of the claim hold, yet the round trip
fails in both ways: the forward run rewrites the version-0 key (the
put at the colliding new key overwrites it) and the round trip
deletes it — afterwards `blocks/m` holds nothing instead of [2] — and
the first collapsed key comes back with the surviving value of the
shared new key — `blocks/b` ends with `blocks/c`'s value [4] instead
of its own [3]. -/
theorem c1_counterexample :
    (decodesV1 cxCodec ["blocks", "a"] = true ∧
      decodesV0 cxCodec ["blocks", "m"] = true ∧
      decodesV1 cxCodec ["blocks", "b"] = true ∧
      decodesV1 cxCodec ["blocks", "c"] = true ∧
      candidateNewKey cxCodec ["blocks", "b"] =
        candidateNewKey cxCodec ["blocks", "c"]) ∧
    alookup cxStore ["blocks", "m"] = some [2] ∧
    alookup cxStore ["blocks", "b"] = some [3] ∧
    StoreOp.put ["blocks", "m"] [1] ∈
      (CidSwapperRun cxCodec 1 ["blocks"] true ⟨cxStore, []⟩ false).fin.sw.trace ∧
    alookup (CidSwapperRevert 1 ["blocks"] true
      (CidSwapperRun cxCodec 1 ["blocks"] true ⟨cxStore, []⟩ false).fin.sw.store
      (CidSwapperRun cxCodec 1 ["blocks"] true
        ⟨cxStore, []⟩ false).fin.notifs).fin.swker.store.data ["blocks", "m"] =
      none ∧
    alookup (CidSwapperRevert 1 ["blocks"] true
      (CidSwapperRun cxCodec 1 ["blocks"] true ⟨cxStore, []⟩ false).fin.sw.store
      (CidSwapperRun cxCodec 1 ["blocks"] true
        ⟨cxStore, []⟩ false).fin.notifs).fin.swker.store.data ["blocks", "b"] =
      some [4] := by
  decide

theorem v1Entries_append (codec : Codec) (l1 l2 : List (DsKey × Value)) :
    v1Entries codec (l1 ++ l2) = v1Entries codec l1 ++ v1Entries codec l2 := by
  unfold v1Entries
  rw [List.filter_append]

theorem newsOf_append (codec : Codec) (l1 l2 : List (DsKey × Value)) :
    newsOf codec (l1 ++ l2) = newsOf codec l1 ++ newsOf codec l2 := by
  unfold newsOf
  rw [List.filterMap_append]

theorem recordsOf_append (codec : Codec) (l1 l2 : List (DsKey × Value)) :
    recordsOf codec (l1 ++ l2) = recordsOf codec l1 ++ recordsOf codec l2 := by
  unfold recordsOf
  rw [List.filterMap_append]

theorem cand_isSome_v1 (codec : Codec) (k nk : DsKey)
    (h : candidateNewKey codec k = some nk) : decodesV1 codec k = true := by
  cases hdec : codec.dsKeyToCid k.baseNamespace with
  | none => simp [candidateNewKey, hdec] at h
  | some c =>
    by_cases h0 : c.version = 0
    · simp [candidateNewKey, hdec, h0] at h
    · simp [decodesV1, hdec, h0]

theorem v1_cand_isSome (codec : Codec) (k : DsKey) (h : decodesV1 codec k = true) :
    ∃ nk, candidateNewKey codec k = some nk := by
  cases hdec : codec.dsKeyToCid k.baseNamespace with
  | none => simp [decodesV1, hdec] at h
  | some c =>
    have h0 : ¬ c.version = 0 := by simpa [decodesV1, hdec] using h
    exact ⟨k.parent.child (codec.multihashToDsKey c.hash),
      by simp [candidateNewKey, hdec, h0]⟩

theorem v0_not_v1 (codec : Codec) (k : DsKey) (h0 : decodesV0 codec k = true)
    (h1 : decodesV1 codec k = true) : False := by
  cases hdec : codec.dsKeyToCid k.baseNamespace with
  | none => simp [decodesV0, hdec] at h0
  | some c =>
    simp [decodesV0, hdec] at h0
    simp [decodesV1, hdec, h0] at h1

theorem mem_newsKeys (codec : Codec) (l : List (DsKey × Value)) (x : DsKey) :
    x ∈ (newsOf codec l).map Prod.fst ↔
      ∃ e ∈ l, candidateNewKey codec e.1 = some x := by
  constructor
  · intro hx
    rcases List.mem_map.mp hx with ⟨q, hq, rfl⟩
    rcases List.mem_filterMap.mp hq with ⟨e, he, hm⟩
    rcases Option.map_eq_some'.mp hm with ⟨nk, hnk, rfl⟩
    exact ⟨e, he, hnk⟩
  · rintro ⟨e, he, hc⟩
    exact List.mem_map.mpr
      ⟨(x, e.2), List.mem_filterMap.mpr ⟨e, he, by rw [hc]; rfl⟩, rfl⟩

theorem mem_newsOf (codec : Codec) (l : List (DsKey × Value)) (nk : DsKey) (v : Value) :
    (nk, v) ∈ newsOf codec l ↔
      ∃ e ∈ l, candidateNewKey codec e.1 = some nk ∧ e.2 = v := by
  constructor
  · intro hx
    rcases List.mem_filterMap.mp hx with ⟨e, he, hm⟩
    rcases Option.map_eq_some'.mp hm with ⟨a, ha, heq⟩
    rw [Prod.mk.injEq] at heq
    obtain ⟨h1, h2⟩ := heq
    subst h1
    exact ⟨e, he, ha, h2⟩
  · rintro ⟨e, he, hc, rfl⟩
    exact List.mem_filterMap.mpr ⟨e, he, by rw [hc]; rfl⟩

theorem mem_v1Keys (codec : Codec) (l : List (DsKey × Value)) (x : DsKey) :
    x ∈ (v1Entries codec l).map Prod.fst ↔
      ∃ e ∈ l, e.1 = x ∧ decodesV1 codec e.1 = true := by
  simp only [v1Entries, List.mem_map, List.mem_filter]
  constructor
  · rintro ⟨e, ⟨he, hv⟩, rfl⟩
    exact ⟨e, he, rfl, hv⟩
  · rintro ⟨e, he, rfl, hv⟩
    exact ⟨e, ⟨he, hv⟩, rfl⟩

theorem v1Keys_nodup (codec : Codec) (l : List (DsKey × Value))
    (h : (l.map Prod.fst).Nodup) : ((v1Entries codec l).map Prod.fst).Nodup :=
  h.sublist ((List.filter_sublist _).map Prod.fst)

end Mg8

namespace Mg8

theorem fwd_step (codec : Codec) (syncSize : Nat) (st0 : List (DsKey × Value))
    (H1 : (st0.map Prod.fst).Nodup)
    (H4 : ∀ e1 ∈ st0, ∀ e2 ∈ st0, ∀ nk : DsKey, candidateNewKey codec e1.1 = some nk →
      candidateNewKey codec e2.1 = some nk → e1.2 = e2.2)
    (H5 : ∀ e ∈ st0, ∀ nk : DsKey, candidateNewKey codec e.1 = some nk →
      ¬ nk ∈ st0.map Prod.fst)
    (procd : List (DsKey × Value)) (e : DsKey × Value) (rest : List (DsKey × Value))
    (hsplit : st0 = procd ++ e :: rest)
    (st : WorkerLoopState) (hinv : FwdInv codec st0 procd st) :
    FwdInv codec st0 (procd ++ [e]) (swapStep codec false syncSize true st (.ok e.1)) := by
  obtain ⟨hfp, herr, hnot, deleted, pend, hsp, htd, hA, hB, hC⟩ := hinv
  have he_mem : e ∈ st0 := by
    rw [hsplit]
    exact List.mem_append_right _ (List.mem_cons_self _ _)
  have hprocd_mem : ∀ q ∈ procd, q ∈ st0 := by
    intro q hq
    rw [hsplit]
    exact List.mem_append_left _ hq
  have he_not_procd : ¬ e.1 ∈ procd.map Prod.fst := by
    have hnd2 : ((procd ++ e :: rest).map Prod.fst).Nodup := by rw [← hsplit]; exact H1
    rw [List.map_append] at hnd2
    rcases List.nodup_append.mp hnd2 with ⟨_, _, hdisj⟩
    intro hmem
    exact hdisj hmem (by simp)
  have hv1keys_procd : ∀ x : DsKey, x ∈ (v1Entries codec procd).map Prod.fst →
      x ∈ procd.map Prod.fst := by
    intro x hx
    rcases (mem_v1Keys codec procd x).mp hx with ⟨e2, he2, hx2, _⟩
    exact List.mem_map.mpr ⟨e2, he2, hx2⟩
  have hfresh : ∀ x : DsKey, x ∈ st0.map Prod.fst →
      alookup (newsOf codec procd) x = none := by
    intro x hx
    rw [alookup_eq_none_iff]
    intro hmem
    rcases (mem_newsKeys codec procd x).mp hmem with ⟨e2, he2, hc2⟩
    exact H5 e2 (hprocd_mem e2 he2) x hc2 hx
  cases hdec : codec.dsKeyToCid e.1.baseNamespace with
  | none =>
    rw [swapStep_skip _ _ _ _ _ _ hdec]
    have hcnone : candidateNewKey codec e.1 = none := by simp [candidateNewKey, hdec]
    have hv1f : decodesV1 codec e.1 = false := by simp [decodesV1, hdec]
    have hv1e : v1Entries codec [e] = [] := by simp [v1Entries, hv1f]
    have hnewse : newsOf codec [e] = [] := by simp [newsOf, hcnone]
    have hrece : recordsOf codec [e] = [] := by simp [recordsOf, hcnone]
    refine ⟨hfp, herr, ?_, deleted, pend, ?_, htd, ?_, ?_, ?_⟩
    · rw [recordsOf_append, hrece, List.append_nil]; exact hnot
    · rw [v1Entries_append, hv1e, List.append_nil]; exact hsp
    · rw [newsOf_append, hnewse, List.append_nil]; exact hA
    · rw [newsOf_append, hnewse, List.append_nil]; exact hB
    · rw [newsOf_append, hnewse, List.append_nil]; exact hC
  | some c =>
    by_cases h0 : c.version = 0
    · rw [swapStep_skipV0 _ _ _ _ _ _ _ hdec h0]
      have hcnone : candidateNewKey codec e.1 = none := by
        simp [candidateNewKey, hdec, h0]
      have hv1f : decodesV1 codec e.1 = false := by simp [decodesV1, hdec, h0]
      have hv1e : v1Entries codec [e] = [] := by simp [v1Entries, hv1f]
      have hnewse : newsOf codec [e] = [] := by simp [newsOf, hcnone]
      have hrece : recordsOf codec [e] = [] := by simp [recordsOf, hcnone]
      refine ⟨hfp, herr, ?_, deleted, pend, ?_, htd, ?_, ?_, ?_⟩
      · rw [recordsOf_append, hrece, List.append_nil]; exact hnot
      · rw [v1Entries_append, hv1e, List.append_nil]; exact hsp
      · rw [newsOf_append, hnewse, List.append_nil]; exact hA
      · rw [newsOf_append, hnewse, List.append_nil]; exact hB
      · rw [newsOf_append, hnewse, List.append_nil]; exact hC
    · rw [swapStep_realV1 _ _ _ _ _ _ hdec h0]
      have hcand : candidateNewKey codec e.1 =
          some (DsKey.child (DsKey.parent e.1) (codec.multihashToDsKey c.hash)) := by
        simp [candidateNewKey, hdec, h0]
      generalize hnk : DsKey.child (DsKey.parent e.1) (codec.multihashToDsKey c.hash) = nk
      rw [hnk] at hcand
      have hv1t : decodesV1 codec e.1 = true := cand_isSome_v1 _ _ _ hcand
      have hv1e : v1Entries codec [e] = [e] := by simp [v1Entries, hv1t]
      have hnewse : newsOf codec [e] = [(nk, e.2)] := by simp [newsOf, hcand]
      have hrece : recordsOf codec [e] = [⟨e.1, nk⟩] := by simp [recordsOf, hcand]
      have hnk_fresh : ¬ nk ∈ st0.map Prod.fst := H5 e he_mem nk hcand
      have hval_agree : ∀ v : Value, alookup (newsOf codec procd) nk = some v →
          v = e.2 := by
        intro v hv
        have hmem := mem_of_alookup_eq_some _ _ _ hv
        rcases (mem_newsOf codec procd nk v).mp hmem with ⟨e2, he2, hc2, hv2⟩
        rw [← hv2]
        exact H4 e2 (hprocd_mem e2 he2) e he_mem nk hc2 hcand
      have he_not_deleted : ¬ e.1 ∈ deleted := by
        intro hmem
        exact he_not_procd (hv1keys_procd e.1 (hsp ▸ List.mem_append_left _ hmem))
      have hget : st.sw.store.get e.1 = some e.2 := by
        show alookup st.sw.store.data e.1 = some e.2
        rw [hC e.1 (hfresh e.1 (List.mem_map.mpr ⟨e, he_mem, rfl⟩)) he_not_deleted]
        exact alookup_of_mem_nodup st0 e.1 e.2 he_mem H1
      have hok : ¬ nk ∈ st.sw.store.failPut := by rw [hfp]; simp
      have hst0keys_of_v1procd : ∀ x : DsKey,
          x ∈ (v1Entries codec procd).map Prod.fst → x ∈ st0.map Prod.fst := by
        intro x hx
        rcases List.mem_map.mp (hv1keys_procd x hx) with ⟨e2, he2, hx2⟩
        exact List.mem_map.mpr ⟨e2, hprocd_mem e2 he2, hx2⟩
      have hnews_part : ∀ (x : DsKey) (v : Value),
          alookup (newsOf codec (procd ++ [e])) x = some v →
          alookup (newsOf codec procd) x = some v ∨
          (alookup (newsOf codec procd) x = none ∧ x = nk ∧ v = e.2) := by
        intro x v hx
        rw [newsOf_append, hnewse, alookup_append] at hx
        cases hpx : alookup (newsOf codec procd) x with
        | some w =>
          rw [hpx] at hx
          simp only [Option.some.injEq] at hx
          subst hx
          exact Or.inl rfl
        | none =>
          rw [hpx] at hx
          simp only [alookup] at hx
          by_cases hxe : x = nk
          · subst hxe
            rw [if_pos rfl] at hx
            simp only [Option.some.injEq] at hx
            exact Or.inr ⟨rfl, rfl, hx.symm⟩
          · rw [if_neg hxe] at hx
            exact Option.noConfusion hx
      have hnews_none : ∀ x : DsKey, alookup (newsOf codec (procd ++ [e])) x = none →
          alookup (newsOf codec procd) x = none ∧ ¬ x = nk := by
        intro x hx
        rw [newsOf_append, hnewse, alookup_append] at hx
        cases hpx : alookup (newsOf codec procd) x with
        | some w => rw [hpx] at hx; exact Option.noConfusion hx
        | none =>
          rw [hpx] at hx
          simp only [alookup] at hx
          by_cases hxe : x = nk
          · rw [if_pos hxe] at hx; exact Option.noConfusion hx
          · exact ⟨rfl, hxe⟩
      have hpend_st0 : ∀ x ∈ pend ++ [e.1], x ∈ st0.map Prod.fst := by
        intro x hx
        rcases List.mem_append.mp hx with hx | hx
        · exact hst0keys_of_v1procd x (hsp ▸ List.mem_append_right _ hx)
        · have hx2 : x = e.1 := by simpa using hx
          subst hx2
          exact List.mem_map.mpr ⟨e, he_mem, rfl⟩
      have hnk_pend : ¬ nk ∈ st.sw.toDelete ++ [e.1] := by
        rw [htd]
        intro hmem
        exact hnk_fresh (hpend_st0 nk hmem)
      have hnewskey_fresh : ∀ (x : DsKey) (v : Value),
          alookup (newsOf codec procd) x = some v → ¬ x ∈ st0.map Prod.fst := by
        intro x v hx hmem
        have hx2 := mem_of_alookup_eq_some _ _ _ hx
        rcases (mem_newsKeys codec procd x).mp
          (List.mem_map.mpr ⟨(x, v), hx2, rfl⟩) with ⟨e2, he2, hc2⟩
        exact H5 e2 (hprocd_mem e2 he2) x hc2 hmem
      by_cases hth : syncSize ≤ st.sw.curSyncSize + e.2.length
      · rw [swap_eval_flush _ _ _ _ _ hget hok hth]
        refine ⟨by simpa [delAll_failPut, DStore.put] using hfp, herr, ?_,
          deleted ++ (pend ++ [e.1]), [], ?_, rfl, ?_, ?_, ?_⟩
        · show st.notifs ++ [Swap.mk e.1 nk] = _
          rw [recordsOf_append, hrece, hnot]
        · rw [v1Entries_append, hv1e, List.map_append, hsp]
          simp
        · intro x v hx
          show alookup (delAll (st.sw.store.put nk e.2)
            (st.sw.toDelete ++ [e.1])).data x = some v
          rcases hnews_part x v hx with hpx | ⟨hpx, hxnk, hv⟩
          · by_cases hxnk : x = nk
            · subst hxnk
              have hv2 : v = e.2 := hval_agree v hpx
              subst hv2
              rw [delAll_data, if_neg hnk_pend]
              exact alookup_aput_self _ _ _
            · have hxfresh : ¬ x ∈ st0.map Prod.fst := hnewskey_fresh x v hpx
              have hxpend : ¬ x ∈ st.sw.toDelete ++ [e.1] := by
                rw [htd]
                intro hmem
                exact hxfresh (hpend_st0 x hmem)
              rw [delAll_data, if_neg hxpend]
              show alookup (aput st.sw.store.data nk e.2) x = some v
              rw [alookup_aput_ne _ _ _ _ hxnk]
              exact hA x v hpx
          · subst hxnk
            subst hv
            rw [delAll_data, if_neg hnk_pend]
            exact alookup_aput_self _ _ _
        · intro x hx hmem
          obtain ⟨hpx, hxnk⟩ := hnews_none x hx
          show alookup (delAll (st.sw.store.put nk e.2)
            (st.sw.toDelete ++ [e.1])).data x = none
          by_cases hxpend : x ∈ st.sw.toDelete ++ [e.1]
          · rw [delAll_data, if_pos hxpend]
          · rw [delAll_data, if_neg hxpend]
            show alookup (aput st.sw.store.data nk e.2) x = none
            rw [alookup_aput_ne _ _ _ _ hxnk]
            rcases List.mem_append.mp hmem with hmem2 | hmem2
            · exact hB x hpx hmem2
            · exact absurd (htd ▸ hmem2) hxpend
        · intro x hx hnmem
          obtain ⟨hpx, hxnk⟩ := hnews_none x hx
          have hxdel : ¬ x ∈ deleted := fun hmem =>
            hnmem (List.mem_append_left _ hmem)
          have hxpend : ¬ x ∈ st.sw.toDelete ++ [e.1] := fun hmem =>
            hnmem (List.mem_append_right _ (htd ▸ hmem))
          show alookup (delAll (st.sw.store.put nk e.2)
            (st.sw.toDelete ++ [e.1])).data x = alookup st0 x
          rw [delAll_data, if_neg hxpend]
          show alookup (aput st.sw.store.data nk e.2) x = alookup st0 x
          rw [alookup_aput_ne _ _ _ _ hxnk]
          exact hC x hpx hxdel
      · rw [swap_eval_noflush syncSize st.sw e.1 nk e.2 hget hok (by omega)]
        refine ⟨by simpa [DStore.put] using hfp, herr, ?_,
          deleted, pend ++ [e.1], ?_, by rw [htd], ?_, ?_, ?_⟩
        · show st.notifs ++ [Swap.mk e.1 nk] = _
          rw [recordsOf_append, hrece, hnot]
        · rw [v1Entries_append, hv1e, List.map_append, hsp]
          simp
        · intro x v hx
          show alookup (aput st.sw.store.data nk e.2) x = some v
          rcases hnews_part x v hx with hpx | ⟨hpx, hxnk, hv⟩
          · by_cases hxnk : x = nk
            · subst hxnk
              have hv2 : v = e.2 := hval_agree v hpx
              subst hv2
              exact alookup_aput_self _ _ _
            · rw [alookup_aput_ne _ _ _ _ hxnk]
              exact hA x v hpx
          · subst hxnk
            subst hv
            exact alookup_aput_self _ _ _
        · intro x hx hmem
          obtain ⟨hpx, hxnk⟩ := hnews_none x hx
          show alookup (aput st.sw.store.data nk e.2) x = none
          rw [alookup_aput_ne _ _ _ _ hxnk]
          exact hB x hpx hmem
        · intro x hx hnmem
          obtain ⟨hpx, hxnk⟩ := hnews_none x hx
          show alookup (aput st.sw.store.data nk e.2) x = alookup st0 x
          rw [alookup_aput_ne _ _ _ _ hxnk]
          exact hC x hpx hnmem

end Mg8

namespace Mg8

theorem queryKeys_all (st0 : List (DsKey × Value)) (ns : DsKey)
    (H2 : ∀ e ∈ st0, ns.isPrefixOf e.1 = true ∧ ¬ e.1 = ns) :
    DStore.queryKeys ⟨st0, []⟩ ns =
      st0.map (fun e => (.ok e.1 : QueryResult)) := by
  unfold DStore.queryKeys
  have hf : List.filter (fun e => ns.isPrefixOf e.1 && e.1 != ns) st0 = st0 := by
    apply List.filter_eq_self.mpr
    intro e he
    obtain ⟨h1, h2⟩ := H2 e he
    rw [h1, bne_iff_ne.mpr h2]
    rfl
  rw [hf]

theorem fwd_loop (codec : Codec) (syncSize : Nat) (st0 : List (DsKey × Value))
    (H1 : (st0.map Prod.fst).Nodup)
    (H4 : ∀ e1 ∈ st0, ∀ e2 ∈ st0, ∀ nk : DsKey, candidateNewKey codec e1.1 = some nk →
      candidateNewKey codec e2.1 = some nk → e1.2 = e2.2)
    (H5 : ∀ e ∈ st0, ∀ nk : DsKey, candidateNewKey codec e.1 = some nk →
      ¬ nk ∈ st0.map Prod.fst) :
    ∀ (rest procd : List (DsKey × Value)) (st : WorkerLoopState),
    st0 = procd ++ rest → FwdInv codec st0 procd st →
    FwdInv codec st0 st0
      ((rest.map (fun e => (.ok e.1 : QueryResult))).foldl
        (swapStep codec false syncSize true) st) := by
  intro rest
  induction rest with
  | nil =>
    intro procd st hsplit hinv
    rw [List.append_nil] at hsplit
    subst hsplit
    exact hinv
  | cons e rest2 ih =>
    intro procd st hsplit hinv
    rw [List.map_cons, List.foldl_cons]
    exact ih (procd ++ [e]) _ (by rw [hsplit]; simp)
      (fwd_step codec syncSize st0 H1 H4 H5 procd e rest2 hsplit st hinv)

theorem fwd_init (codec : Codec) (st0 : List (DsKey × Value)) (ns : DsKey) :
    FwdInv codec st0 [] ⟨⟨0, 0, ⟨st0, []⟩, ns, [], []⟩, 0, []⟩ := by
  refine ⟨rfl, rfl, rfl, [], [], rfl, rfl, ?_, ?_, ?_⟩
  · intro x v hx
    simp [newsOf, alookup] at hx
  · intro x hx hmem
    simp at hmem
  · intro x hx hmem
    rfl

end Mg8

namespace Mg8

theorem rev_step (codec : Codec) (syncSize : Nat) (st0 : List (DsKey × Value))
    (H1 : (st0.map Prod.fst).Nodup)
    (H4 : ∀ e1 ∈ st0, ∀ e2 ∈ st0, ∀ nk : DsKey, candidateNewKey codec e1.1 = some nk →
      candidateNewKey codec e2.1 = some nk → e1.2 = e2.2)
    (H5 : ∀ e ∈ st0, ∀ nk : DsKey, candidateNewKey codec e.1 = some nk →
      ¬ nk ∈ st0.map Prod.fst)
    (procd : List (DsKey × Value)) (e : DsKey × Value) (rest : List (DsKey × Value))
    (hsplit : st0 = procd ++ e :: rest)
    (st : UnswapState) (hinv : RevInv codec st0 procd st)
    (nk : DsKey) (hcand : candidateNewKey codec e.1 = some nk) :
    RevInv codec st0 (procd ++ [e]) (unswapStep syncSize true st ⟨e.1, nk⟩) := by
  obtain ⟨hfp, herr, hTD, hR1, hR2, hR3, hR4, hR5, hRM⟩ := hinv
  have he_mem : e ∈ st0 := by
    rw [hsplit]
    exact List.mem_append_right _ (List.mem_cons_self _ _)
  have hprocd_mem : ∀ q ∈ procd, q ∈ st0 := by
    intro q hq
    rw [hsplit]
    exact List.mem_append_left _ hq
  have he_not_procd : ¬ e.1 ∈ procd.map Prod.fst := by
    have hnd2 : ((procd ++ e :: rest).map Prod.fst).Nodup := by rw [← hsplit]; exact H1
    rw [List.map_append] at hnd2
    rcases List.nodup_append.mp hnd2 with ⟨_, _, hdisj⟩
    intro hmem
    exact hdisj hmem (by simp)
  have he_st0keys : e.1 ∈ st0.map Prod.fst := List.mem_map.mpr ⟨e, he_mem, rfl⟩
  have hv1t : decodesV1 codec e.1 = true := cand_isSome_v1 _ _ _ hcand
  have hnk_fresh : ¬ nk ∈ st0.map Prod.fst := H5 e he_mem nk hcand
  have hv1keys_st0keys : ∀ x : DsKey, x ∈ (v1Entries codec procd).map Prod.fst →
      x ∈ st0.map Prod.fst := by
    intro x hx
    rcases (mem_v1Keys codec procd x).mp hx with ⟨e2, he2, hx2, _⟩
    exact List.mem_map.mpr ⟨e2, hprocd_mem e2 he2, hx2⟩
  have hnewsK_fresh : ∀ x : DsKey, x ∈ (newsOf codec st0).map Prod.fst →
      ¬ x ∈ st0.map Prod.fst := by
    intro x hx
    rcases (mem_newsKeys codec st0 x).mp hx with ⟨e2, he2, hc2⟩
    exact H5 e2 he2 x hc2
  have hnewsK_procd_sub : ∀ x : DsKey, x ∈ (newsOf codec procd).map Prod.fst →
      x ∈ (newsOf codec st0).map Prod.fst := by
    intro x hx
    rcases (mem_newsKeys codec procd x).mp hx with ⟨e2, he2, hc2⟩
    exact (mem_newsKeys codec st0 x).mpr ⟨e2, hprocd_mem e2 he2, hc2⟩
  have hv1procd_nk : alookup (v1Entries codec procd) nk = none := by
    rw [alookup_eq_none_iff]
    intro hmem
    exact hnk_fresh (hv1keys_st0keys nk hmem)
  have hnews_st0_nk : alookup (newsOf codec st0) nk = some e.2 := by
    cases hx : alookup (newsOf codec st0) nk with
    | none =>
      exfalso
      have hmem : nk ∈ (newsOf codec st0).map Prod.fst :=
        (mem_newsKeys codec st0 nk).mpr ⟨e, he_mem, hcand⟩
      exact (alookup_eq_none_iff _ _).mp hx hmem
    | some w =>
      have hmem := mem_of_alookup_eq_some _ _ _ hx
      rcases (mem_newsOf codec st0 nk w).mp hmem with ⟨e2, he2, hc2, hv2⟩
      rw [← hv2, H4 e2 he2 e he_mem nk hc2 hcand]
  have hok : ¬ e.1 ∈ st.swker.store.failPut := by rw [hfp]; simp
  have hv1e : v1Entries codec [e] = [e] := by simp [v1Entries, hv1t]
  have hnewse : newsOf codec [e] = [(nk, e.2)] := by simp [newsOf, hcand]
  have he1_not_v1procd : alookup (v1Entries codec procd) e.1 = none := by
    rw [alookup_eq_none_iff]
    intro hmem
    rcases (mem_v1Keys codec procd e.1).mp hmem with ⟨e2, he2, hx2, _⟩
    exact he_not_procd (List.mem_map.mpr ⟨e2, he2, hx2⟩)
  have hv1_part : ∀ (x : DsKey) (v : Value),
      alookup (v1Entries codec (procd ++ [e])) x = some v →
      (alookup (v1Entries codec procd) x = some v ∧ ¬ x = e.1) ∨
      (alookup (v1Entries codec procd) x = none ∧ x = e.1 ∧ v = e.2) := by
    intro x v hx
    rw [v1Entries_append, hv1e, alookup_append] at hx
    cases hpx : alookup (v1Entries codec procd) x with
    | some w =>
      rw [hpx] at hx
      simp only [Option.some.injEq] at hx
      subst hx
      refine Or.inl ⟨rfl, ?_⟩
      intro hxe
      subst hxe
      rw [he1_not_v1procd] at hpx
      exact Option.noConfusion hpx
    | none =>
      rw [hpx] at hx
      simp only [alookup] at hx
      by_cases hxe : x = e.1
      · rw [if_pos hxe] at hx
        simp only [Option.some.injEq] at hx
        exact Or.inr ⟨rfl, hxe, hx.symm⟩
      · rw [if_neg hxe] at hx
        exact Option.noConfusion hx
  have hv1_none : ∀ x : DsKey, alookup (v1Entries codec (procd ++ [e])) x = none →
      alookup (v1Entries codec procd) x = none ∧ ¬ x = e.1 := by
    intro x hx
    rw [v1Entries_append, hv1e, alookup_append] at hx
    cases hpx : alookup (v1Entries codec procd) x with
    | some w => rw [hpx] at hx; exact Option.noConfusion hx
    | none =>
      rw [hpx] at hx
      simp only [alookup] at hx
      by_cases hxe : x = e.1
      · rw [if_pos hxe] at hx; exact Option.noConfusion hx
      · exact ⟨rfl, hxe⟩
  have hnewsKprocd' : (newsOf codec (procd ++ [e])).map Prod.fst =
      (newsOf codec procd).map Prod.fst ++ [nk] := by
    rw [newsOf_append, hnewse, List.map_append]
    rfl
  have hv1Kprocd' : (v1Entries codec (procd ++ [e])).map Prod.fst =
      (v1Entries codec procd).map Prod.fst ++ [e.1] := by
    rw [v1Entries_append, hv1e, List.map_append]
    rfl
  by_cases hmappath : nk ∈ (newsOf codec procd).map Prod.fst ∧ ¬ nk ∈ st.swker.toDelete
  · obtain ⟨hNp, hnotdel⟩ := hmappath
    have hstore_nk : st.swker.store.get nk = none := hR2 nk hv1procd_nk hNp hnotdel
    have hswap := swap_eval_notfound syncSize st.swker nk e.1 hstore_nk
    rcases hRM nk hNp with ⟨k, hmap, hcandk, hkV1p⟩
    obtain ⟨vk, hvk⟩ : ∃ vk : Value, alookup (v1Entries codec procd) k = some vk := by
      cases hx : alookup (v1Entries codec procd) k with
      | none => exact absurd hkV1p ((alookup_eq_none_iff _ _).mp hx)
      | some vk => exact ⟨vk, rfl⟩
    have hkprocd : (k, vk) ∈ procd := (List.mem_filter.mp
      (mem_of_alookup_eq_some _ _ _ hvk)).1
    have hvk_e2 : vk = e.2 :=
      H4 (k, vk) (hprocd_mem _ hkprocd) e he_mem nk hcandk hcand
    rw [hvk_e2] at hvk
    have hget2 : st.swker.store.get k = some e.2 := hR1 k e.2 hvk
    rw [unswapStep_nf_restore syncSize true st ⟨e.1, nk⟩ _ k e.2 hswap hmap hget2 hok]
    refine ⟨by simpa [DStore.put] using hfp, herr, ?_, ?_, ?_, ?_, ?_, ?_, ?_⟩
    · intro x hx
      rw [hnewsKprocd']
      exact List.mem_append_left _ (hTD x hx)
    · intro x v hx
      show alookup (aput st.swker.store.data e.1 e.2) x = some v
      rcases hv1_part x v hx with ⟨hpx, hxe⟩ | ⟨hpx, hxe, hv⟩
      · rw [alookup_aput_ne _ _ _ _ hxe]
        exact hR1 x v hpx
      · subst hxe
        subst hv
        exact alookup_aput_self _ _ _
    · intro x hx hxNp hxtd
      obtain ⟨hpx, hxe⟩ := hv1_none x hx
      show alookup (aput st.swker.store.data e.1 e.2) x = none
      rw [alookup_aput_ne _ _ _ _ hxe]
      rw [hnewsKprocd'] at hxNp
      rcases List.mem_append.mp hxNp with hx2 | hx2
      · exact hR2 x hpx hx2 hxtd
      · have hx3 : x = nk := by simpa using hx2
        subst hx3
        exact hstore_nk
    · intro x v hx hguard hnews
      obtain ⟨hpx, hxe⟩ := hv1_none x hx
      show alookup (aput st.swker.store.data e.1 e.2) x = some v
      rw [alookup_aput_ne _ _ _ _ hxe]
      refine hR3 x v hpx ?_ hnews
      rcases hguard with hg | hg
      · refine Or.inl ?_
        intro hmem
        exact hg (by rw [hnewsKprocd']; exact List.mem_append_left _ hmem)
      · exact Or.inr hg
    · intro x hx hnews hv1s
      obtain ⟨hpx, hxe⟩ := hv1_none x hx
      show alookup (aput st.swker.store.data e.1 e.2) x = none
      rw [alookup_aput_ne _ _ _ _ hxe]
      exact hR4 x hpx hnews hv1s
    · intro x hx hnews hv1s
      obtain ⟨hpx, hxe⟩ := hv1_none x hx
      show alookup (aput st.swker.store.data e.1 e.2) x = alookup st0 x
      rw [alookup_aput_ne _ _ _ _ hxe]
      exact hR5 x hpx hnews hv1s
    · intro x hxNp
      rw [hnewsKprocd'] at hxNp
      by_cases hxnk : x = nk
      · subst hxnk
        refine ⟨e.1, alookup_aput_self _ _ _, hcand, ?_⟩
        rw [hv1Kprocd']
        exact List.mem_append_right _ (by simp)
      · rcases List.mem_append.mp hxNp with hx2 | hx2
        · rcases hRM x hx2 with ⟨k2, hmap2, hc2, hk2⟩
          refine ⟨k2, ?_, hc2, ?_⟩
          · rw [alookup_aput_ne _ _ _ _ hxnk]
            exact hmap2
          · rw [hv1Kprocd']
            exact List.mem_append_left _ hk2
        · exact absurd (by simpa using hx2) hxnk
  · have hpres : alookup st.swker.store.data nk = some e.2 := by
      by_cases hNp : nk ∈ (newsOf codec procd).map Prod.fst
      · have htd2 : nk ∈ st.swker.toDelete := by
          by_contra h
          exact hmappath ⟨hNp, h⟩
        exact hR3 nk e.2 hv1procd_nk (Or.inr htd2) hnews_st0_nk
      · exact hR3 nk e.2 hv1procd_nk (Or.inl hNp) hnews_st0_nk
    have hget : st.swker.store.get nk = some e.2 := hpres
    by_cases hth : syncSize ≤ st.swker.curSyncSize + e.2.length
    · have hswap := swap_eval_flush syncSize st.swker nk e.1 e.2 hget hok hth
      rw [unswapStep_ok syncSize true st ⟨e.1, nk⟩ _ hswap]
      refine ⟨by simpa [delAll_failPut, DStore.put] using hfp, herr,
        ?_, ?_, ?_, ?_, ?_, ?_, ?_⟩
      · intro x hx
        exact absurd hx (List.not_mem_nil x)
      · intro x v hx
        show alookup (delAll (st.swker.store.put e.1 e.2)
          (st.swker.toDelete ++ [nk])).data x = some v
        have hx_st0 : x ∈ st0.map Prod.fst := by
          rcases hv1_part x v hx with ⟨hpx, hxe⟩ | ⟨hpx, hxe, hv⟩
          · exact hv1keys_st0keys x
              (List.mem_map.mpr ⟨(x, v), mem_of_alookup_eq_some _ _ _ hpx, rfl⟩)
          · subst hxe
            exact he_st0keys
        have hxpend : ¬ x ∈ st.swker.toDelete ++ [nk] := by
          intro hmem
          rcases List.mem_append.mp hmem with hmem | hmem
          · exact hnewsK_fresh x (hnewsK_procd_sub x (hTD x hmem)) hx_st0
          · have hx2 : x = nk := by simpa using hmem
            exact hnk_fresh (hx2 ▸ hx_st0)
        rw [delAll_data, if_neg hxpend]
        rcases hv1_part x v hx with ⟨hpx, hxe⟩ | ⟨hpx, hxe, hv⟩
        · show alookup (aput st.swker.store.data e.1 e.2) x = some v
          rw [alookup_aput_ne _ _ _ _ hxe]
          exact hR1 x v hpx
        · subst hxe
          subst hv
          exact alookup_aput_self _ _ _
      · intro x hx hxNp hxtd2
        obtain ⟨hpx, hxe⟩ := hv1_none x hx
        show alookup (delAll (st.swker.store.put e.1 e.2)
          (st.swker.toDelete ++ [nk])).data x = none
        by_cases hxpend : x ∈ st.swker.toDelete ++ [nk]
        · rw [delAll_data, if_pos hxpend]
        · rw [delAll_data, if_neg hxpend]
          show alookup (aput st.swker.store.data e.1 e.2) x = none
          rw [alookup_aput_ne _ _ _ _ hxe]
          rw [hnewsKprocd'] at hxNp
          rcases List.mem_append.mp hxNp with hx2 | hx2
          · refine hR2 x hpx hx2 ?_
            intro hmem
            exact hxpend (List.mem_append_left _ hmem)
          · have hx3 : x = nk := by simpa using hx2
            exact absurd (List.mem_append_right _ (by simp [hx3])) hxpend
      · intro x v hx hguard hnews
        obtain ⟨hpx, hxe⟩ := hv1_none x hx
        have hxNp2 : ¬ x ∈ (newsOf codec (procd ++ [e])).map Prod.fst := by
          rcases hguard with hg | hg
          · exact hg
          · exact absurd hg (List.not_mem_nil x)
        rw [hnewsKprocd'] at hxNp2
        have hxNp : ¬ x ∈ (newsOf codec procd).map Prod.fst :=
          fun h => hxNp2 (List.mem_append_left _ h)
        have hxnk : ¬ x = nk :=
          fun h => hxNp2 (List.mem_append_right _ (by simp [h]))
        have hxpend : ¬ x ∈ st.swker.toDelete ++ [nk] := by
          intro hmem
          rcases List.mem_append.mp hmem with hmem | hmem
          · exact hxNp (hTD x hmem)
          · exact hxnk (by simpa using hmem)
        show alookup (delAll (st.swker.store.put e.1 e.2)
          (st.swker.toDelete ++ [nk])).data x = some v
        rw [delAll_data, if_neg hxpend]
        show alookup (aput st.swker.store.data e.1 e.2) x = some v
        rw [alookup_aput_ne _ _ _ _ hxe]
        exact hR3 x v hpx (Or.inl hxNp) hnews
      · intro x hx hnews hv1s
        obtain ⟨hpx, hxe⟩ := hv1_none x hx
        have hxNs : ¬ x ∈ (newsOf codec st0).map Prod.fst :=
          (alookup_eq_none_iff _ _).mp hnews
        have hxpend : ¬ x ∈ st.swker.toDelete ++ [nk] := by
          intro hmem
          rcases List.mem_append.mp hmem with hmem | hmem
          · exact hxNs (hnewsK_procd_sub x (hTD x hmem))
          · have hx2 : x = nk := by simpa using hmem
            subst hx2
            exact hxNs ((mem_newsKeys codec st0 _).mpr ⟨e, he_mem, hcand⟩)
        show alookup (delAll (st.swker.store.put e.1 e.2)
          (st.swker.toDelete ++ [nk])).data x = none
        rw [delAll_data, if_neg hxpend]
        show alookup (aput st.swker.store.data e.1 e.2) x = none
        rw [alookup_aput_ne _ _ _ _ hxe]
        exact hR4 x hpx hnews hv1s
      · intro x hx hnews hv1s
        obtain ⟨hpx, hxe⟩ := hv1_none x hx
        have hxNs : ¬ x ∈ (newsOf codec st0).map Prod.fst :=
          (alookup_eq_none_iff _ _).mp hnews
        have hxpend : ¬ x ∈ st.swker.toDelete ++ [nk] := by
          intro hmem
          rcases List.mem_append.mp hmem with hmem | hmem
          · exact hxNs (hnewsK_procd_sub x (hTD x hmem))
          · have hx2 : x = nk := by simpa using hmem
            subst hx2
            exact hxNs ((mem_newsKeys codec st0 _).mpr ⟨e, he_mem, hcand⟩)
        show alookup (delAll (st.swker.store.put e.1 e.2)
          (st.swker.toDelete ++ [nk])).data x = alookup st0 x
        rw [delAll_data, if_neg hxpend]
        show alookup (aput st.swker.store.data e.1 e.2) x = alookup st0 x
        rw [alookup_aput_ne _ _ _ _ hxe]
        exact hR5 x hpx hnews hv1s
      · intro x hxNp
        rw [hnewsKprocd'] at hxNp
        by_cases hxnk : x = nk
        · subst hxnk
          refine ⟨e.1, alookup_aput_self _ _ _, hcand, ?_⟩
          rw [hv1Kprocd']
          exact List.mem_append_right _ (by simp)
        · rcases List.mem_append.mp hxNp with hx2 | hx2
          · rcases hRM x hx2 with ⟨k2, hmap2, hc2, hk2⟩
            refine ⟨k2, ?_, hc2, ?_⟩
            · rw [alookup_aput_ne _ _ _ _ hxnk]
              exact hmap2
            · rw [hv1Kprocd']
              exact List.mem_append_left _ hk2
          · exact absurd (by simpa using hx2) hxnk
    · have hswap := swap_eval_noflush syncSize st.swker nk e.1 e.2 hget hok (by omega)
      rw [unswapStep_ok syncSize true st ⟨e.1, nk⟩ _ hswap]
      refine ⟨by simpa [DStore.put] using hfp, herr, ?_, ?_, ?_, ?_, ?_, ?_, ?_⟩
      · intro x hx
        rw [hnewsKprocd']
        rcases List.mem_append.mp hx with hx2 | hx2
        · exact List.mem_append_left _ (hTD x hx2)
        · exact List.mem_append_right _ hx2
      · intro x v hx
        show alookup (aput st.swker.store.data e.1 e.2) x = some v
        rcases hv1_part x v hx with ⟨hpx, hxe⟩ | ⟨hpx, hxe, hv⟩
        · rw [alookup_aput_ne _ _ _ _ hxe]
          exact hR1 x v hpx
        · subst hxe
          subst hv
          exact alookup_aput_self _ _ _
      · intro x hx hxNp hxtd
        obtain ⟨hpx, hxe⟩ := hv1_none x hx
        show alookup (aput st.swker.store.data e.1 e.2) x = none
        rw [alookup_aput_ne _ _ _ _ hxe]
        rw [hnewsKprocd'] at hxNp
        rcases List.mem_append.mp hxNp with hx2 | hx2
        · refine hR2 x hpx hx2 ?_
          intro hmem
          exact hxtd (List.mem_append_left _ hmem)
        · exact absurd (List.mem_append_right _ hx2) hxtd
      · intro x v hx hguard hnews
        obtain ⟨hpx, hxe⟩ := hv1_none x hx
        show alookup (aput st.swker.store.data e.1 e.2) x = some v
        rw [alookup_aput_ne _ _ _ _ hxe]
        rcases hguard with hg | hg
        · rw [hnewsKprocd'] at hg
          refine hR3 x v hpx (Or.inl ?_) hnews
          intro h
          exact hg (List.mem_append_left _ h)
        · rcases List.mem_append.mp hg with hg2 | hg2
          · exact hR3 x v hpx (Or.inr hg2) hnews
          · have hx2 : x = nk := by simpa using hg2
            subst hx2
            have hv2 : e.2 = v := by
              rw [hnews_st0_nk] at hnews
              exact Option.some.inj hnews
            rw [← hv2]
            exact hpres
      · intro x hx hnews hv1s
        obtain ⟨hpx, hxe⟩ := hv1_none x hx
        show alookup (aput st.swker.store.data e.1 e.2) x = none
        rw [alookup_aput_ne _ _ _ _ hxe]
        exact hR4 x hpx hnews hv1s
      · intro x hx hnews hv1s
        obtain ⟨hpx, hxe⟩ := hv1_none x hx
        show alookup (aput st.swker.store.data e.1 e.2) x = alookup st0 x
        rw [alookup_aput_ne _ _ _ _ hxe]
        exact hR5 x hpx hnews hv1s
      · intro x hxNp
        rw [hnewsKprocd'] at hxNp
        by_cases hxnk : x = nk
        · subst hxnk
          refine ⟨e.1, alookup_aput_self _ _ _, hcand, ?_⟩
          rw [hv1Kprocd']
          exact List.mem_append_right _ (by simp)
        · rcases List.mem_append.mp hxNp with hx2 | hx2
          · rcases hRM x hx2 with ⟨k2, hmap2, hc2, hk2⟩
            refine ⟨k2, ?_, hc2, ?_⟩
            · rw [alookup_aput_ne _ _ _ _ hxnk]
              exact hmap2
            · rw [hv1Kprocd']
              exact List.mem_append_left _ hk2
          · exact absurd (by simpa using hx2) hxnk

end Mg8

namespace Mg8

theorem rev_loop (codec : Codec) (syncSize : Nat) (st0 : List (DsKey × Value))
    (H1 : (st0.map Prod.fst).Nodup)
    (H4 : ∀ e1 ∈ st0, ∀ e2 ∈ st0, ∀ nk : DsKey, candidateNewKey codec e1.1 = some nk →
      candidateNewKey codec e2.1 = some nk → e1.2 = e2.2)
    (H5 : ∀ e ∈ st0, ∀ nk : DsKey, candidateNewKey codec e.1 = some nk →
      ¬ nk ∈ st0.map Prod.fst) :
    ∀ (rest procd : List (DsKey × Value)) (st : UnswapState),
    st0 = procd ++ rest → RevInv codec st0 procd st →
    RevInv codec st0 st0 ((recordsOf codec rest).foldl (unswapStep syncSize true) st) := by
  intro rest
  induction rest with
  | nil =>
    intro procd st hsplit hinv
    rw [List.append_nil] at hsplit
    subst hsplit
    exact hinv
  | cons e rest2 ih =>
    intro procd st hsplit hinv
    cases hc : candidateNewKey codec e.1 with
    | none =>
      have hrec : recordsOf codec (e :: rest2) = recordsOf codec rest2 := by
        unfold recordsOf
        rw [List.filterMap_cons]
        simp [hc]
      rw [hrec]
      refine ih (procd ++ [e]) st (by rw [hsplit]; simp) ?_
      obtain ⟨hfp, herr, hTD, hR1, hR2, hR3, hR4, hR5, hRM⟩ := hinv
      have hv1f : decodesV1 codec e.1 = false := by
        cases hd : decodesV1 codec e.1
        · rfl
        · rcases v1_cand_isSome codec e.1 hd with ⟨nk, hnk⟩
          rw [hc] at hnk
          exact Option.noConfusion hnk
      have hv1e : v1Entries codec [e] = [] := by simp [v1Entries, hv1f]
      have hnewse : newsOf codec [e] = [] := by simp [newsOf, hc]
      have hNp_eq : (newsOf codec (procd ++ [e])).map Prod.fst =
          (newsOf codec procd).map Prod.fst := by
        rw [newsOf_append, hnewse, List.append_nil]
      have hv1_eq : v1Entries codec (procd ++ [e]) = v1Entries codec procd := by
        rw [v1Entries_append, hv1e, List.append_nil]
      refine ⟨hfp, herr, ?_, ?_, ?_, ?_, ?_, ?_, ?_⟩
      · intro x hx
        rw [hNp_eq]
        exact hTD x hx
      · intro x v hx
        rw [hv1_eq] at hx
        exact hR1 x v hx
      · intro x hx hxNp hxtd
        rw [hv1_eq] at hx
        rw [hNp_eq] at hxNp
        exact hR2 x hx hxNp hxtd
      · intro x v hx hguard hnews
        rw [hv1_eq] at hx
        rw [hNp_eq] at hguard
        exact hR3 x v hx hguard hnews
      · intro x hx hnews hv1s
        rw [hv1_eq] at hx
        exact hR4 x hx hnews hv1s
      · intro x hx hnews hv1s
        rw [hv1_eq] at hx
        exact hR5 x hx hnews hv1s
      · intro x hxNp
        rw [hNp_eq] at hxNp
        rcases hRM x hxNp with ⟨k, hmap, hck, hk⟩
        refine ⟨k, hmap, hck, ?_⟩
        rw [hv1_eq]
        exact hk
    | some nk =>
      have hrec : recordsOf codec (e :: rest2) =
          Swap.mk e.1 nk :: recordsOf codec rest2 := by
        unfold recordsOf
        rw [List.filterMap_cons]
        simp [hc]
      rw [hrec, List.foldl_cons]
      exact ih (procd ++ [e]) _ (by rw [hsplit]; simp)
        (rev_step codec syncSize st0 H1 H4 H5 procd e rest2 hsplit st hinv nk hc)

end Mg8

namespace Mg8

theorem mem_aput {α β : Type} [DecidableEq α] (m : List (α × β)) (k : α) (v : β)
    (q : α × β) (h : q ∈ aput m k v) : q ∈ m ∨ q = (k, v) := by
  induction m with
  | nil =>
    simp [aput] at h
    exact Or.inr h
  | cons p rest ih =>
    obtain ⟨k2, v2⟩ := p
    by_cases hk : k2 = k
    · subst hk
      simp only [aput, if_pos rfl] at h
      rcases List.mem_cons.mp h with h | h
      · exact Or.inr h
      · exact Or.inl (List.mem_cons_of_mem _ h)
    · simp only [aput, if_neg hk] at h
      rcases List.mem_cons.mp h with h | h
      · exact Or.inl (h ▸ List.mem_cons_self _ _)
      · rcases ih h with h2 | h2
        · exact Or.inl (List.mem_cons_of_mem _ h2)
        · exact Or.inr h2

theorem swap_ops (syncSize : Nat) (sw : SwapWorker) (old new : DsKey) :
    (∀ op ∈ (sw.swap syncSize old new).1.trace, op ∈ sw.trace ∨
      (∀ x : DsKey, op.key? = some x → x = old ∨ x = new ∨ x ∈ sw.toDelete)) ∧
    (∀ k ∈ (sw.swap syncSize old new).1.toDelete, k = old ∨ k ∈ sw.toDelete) := by
  cases hget : sw.store.get old with
  | none =>
    rw [swap_eval_notfound _ _ _ _ hget]
    constructor
    · intro op hop
      rcases List.mem_append.mp hop with h | h
      · exact Or.inl h
      · right
        intro x hx
        have h2 : op = StoreOp.get old := by simpa using h
        subst h2
        simp only [StoreOp.key?, Option.some.injEq] at hx
        exact Or.inl hx.symm
    · intro k hk
      exact Or.inr hk
  | some v =>
    have htail2 : ∀ op, op = StoreOp.get old ∨ op = StoreOp.put new v →
        ∀ x : DsKey, op.key? = some x → x = old ∨ x = new ∨ x ∈ sw.toDelete := by
      rintro op (rfl | rfl) x hx <;>
        simp only [StoreOp.key?, Option.some.injEq] at hx
      · exact Or.inl hx.symm
      · exact Or.inr (Or.inl hx.symm)
    by_cases hfail : new ∈ sw.store.failPut
    · rw [swap_eval_putfail _ _ _ _ _ hget hfail]
      constructor
      · intro op hop
        rcases List.mem_append.mp hop with h | h
        · exact Or.inl h
        · exact Or.inr (htail2 op (by simpa using h))
      · intro k hk
        exact Or.inr hk
    · by_cases hth : syncSize ≤ sw.curSyncSize + v.length
      · rw [swap_eval_flush _ _ _ _ _ hget hfail hth]
        constructor
        · intro op hop
          rcases List.mem_append.mp hop with h | h
          · rcases List.mem_append.mp h with h2 | h2
            · exact Or.inl h2
            · right
              intro x hx
              have h3 : op = StoreOp.get old ∨ op = StoreOp.put new v ∨
                  op = StoreOp.sync sw.syncNs := by simpa using h2
              rcases h3 with rfl | rfl | rfl <;>
                simp only [StoreOp.key?, Option.some.injEq] at hx
              · exact Or.inl hx.symm
              · exact Or.inr (Or.inl hx.symm)
              · exact Option.noConfusion hx
          · right
            intro x hx
            rcases List.mem_map.mp h with ⟨k2, hk2, rfl⟩
            simp only [StoreOp.key?, Option.some.injEq] at hx
            subst hx
            rcases List.mem_append.mp hk2 with h3 | h3
            · exact Or.inr (Or.inr h3)
            · exact Or.inl (by simpa using h3)
        · intro k hk
          simp at hk
      · rw [swap_eval_noflush syncSize sw old new v hget hfail (by omega)]
        constructor
        · intro op hop
          rcases List.mem_append.mp hop with h | h
          · exact Or.inl h
          · exact Or.inr (htail2 op (by simpa using h))
        · intro k hk
          rcases List.mem_append.mp hk with h | h
          · exact Or.inr h
          · exact Or.inl (by simpa using h)

end Mg8

namespace Mg8

theorem fwd_conf_step (codec : Codec) (syncSize : Nat) (hasCh : Bool) (P : DsKey → Prop)
    (st : WorkerLoopState) (res : QueryResult)
    (hres : ∀ k : DsKey, res = .ok k → P k)
    (htr : ∀ op ∈ st.sw.trace, ∀ x : DsKey, op.key? = some x →
      (P x ∧ decodesV1 codec x = true) ∨
      (∃ k : DsKey, P k ∧ candidateNewKey codec k = some x))
    (htdel : ∀ k ∈ st.sw.toDelete, P k ∧ decodesV1 codec k = true) :
    (∀ op ∈ (swapStep codec false syncSize hasCh st res).sw.trace, ∀ x : DsKey,
      op.key? = some x →
      (P x ∧ decodesV1 codec x = true) ∨
      (∃ k : DsKey, P k ∧ candidateNewKey codec k = some x)) ∧
    (∀ k ∈ (swapStep codec false syncSize hasCh st res).sw.toDelete,
      P k ∧ decodesV1 codec k = true) := by
  cases res with
  | error e => rw [swapStep_queryErr]; exact ⟨htr, htdel⟩
  | ok k =>
    have hPk : P k := hres k rfl
    cases hdec : codec.dsKeyToCid k.baseNamespace with
    | none => rw [swapStep_skip _ _ _ _ _ _ hdec]; exact ⟨htr, htdel⟩
    | some c =>
      by_cases h0 : c.version = 0
      · rw [swapStep_skipV0 _ _ _ _ _ _ _ hdec h0]; exact ⟨htr, htdel⟩
      · rw [swapStep_realV1 _ _ _ _ _ _ hdec h0]
        have hcand : candidateNewKey codec k =
            some (k.parent.child (codec.multihashToDsKey c.hash)) := by
          simp [candidateNewKey, hdec, h0]
        have hv1t : decodesV1 codec k = true := cand_isSome_v1 _ _ _ hcand
        have hops := swap_ops syncSize st.sw k
          (k.parent.child (codec.multihashToDsKey c.hash))
        have hcover : (∀ op ∈ (SwapWorker.swap syncSize st.sw k
            (k.parent.child (codec.multihashToDsKey c.hash))).1.trace,
            ∀ x : DsKey, op.key? = some x →
            (P x ∧ decodesV1 codec x = true) ∨
            (∃ k2 : DsKey, P k2 ∧ candidateNewKey codec k2 = some x)) ∧
            (∀ k2 ∈ (SwapWorker.swap syncSize st.sw k
              (k.parent.child (codec.multihashToDsKey c.hash))).1.toDelete,
              P k2 ∧ decodesV1 codec k2 = true) := by
          constructor
          · intro op hop x hx
            rcases hops.1 op hop with h | h
            · exact htr op h x hx
            · rcases h x hx with rfl | rfl | hmem
              · exact Or.inl ⟨hPk, hv1t⟩
              · exact Or.inr ⟨k, hPk, hcand⟩
              · exact Or.inl (htdel x hmem)
          · intro k2 hk2
            rcases hops.2 k2 hk2 with rfl | hmem
            · exact ⟨hPk, hv1t⟩
            · exact htdel k2 hmem
        rcases hsw : SwapWorker.swap syncSize st.sw k
          (k.parent.child (codec.multihashToDsKey c.hash)) with ⟨sw1, err⟩
        rw [hsw] at hcover
        cases err <;> exact ⟨hcover.1, hcover.2⟩

theorem fwd_conf_run (codec : Codec) (syncSize : Nat) (hasCh : Bool) (P : DsKey → Prop)
    (rs : List QueryResult) (store : DStore) (ns : DsKey)
    (hrs : ∀ k : DsKey, .ok k ∈ rs → P k) :
    ∀ op ∈ (swapWorkerRun codec false syncSize hasCh rs store ns).sw.trace,
    ∀ x : DsKey, op.key? = some x →
      (P x ∧ decodesV1 codec x = true) ∨
      (∃ k : DsKey, P k ∧ candidateNewKey codec k = some x) := by
  have hfold : ∀ (rs2 : List QueryResult) (st : WorkerLoopState),
      (∀ k : DsKey, .ok k ∈ rs2 → P k) →
      (∀ op ∈ st.sw.trace, ∀ x : DsKey, op.key? = some x →
        (P x ∧ decodesV1 codec x = true) ∨
        (∃ k : DsKey, P k ∧ candidateNewKey codec k = some x)) →
      (∀ k ∈ st.sw.toDelete, P k ∧ decodesV1 codec k = true) →
      (∀ op ∈ (rs2.foldl (swapStep codec false syncSize hasCh) st).sw.trace,
        ∀ x : DsKey, op.key? = some x →
        (P x ∧ decodesV1 codec x = true) ∨
        (∃ k : DsKey, P k ∧ candidateNewKey codec k = some x)) ∧
      (∀ k ∈ (rs2.foldl (swapStep codec false syncSize hasCh) st).sw.toDelete,
        P k ∧ decodesV1 codec k = true) := by
    intro rs2
    induction rs2 with
    | nil => intro st _ htr htdel; exact ⟨htr, htdel⟩
    | cons r rest ih =>
      intro st hrs2 htr htdel
      rw [List.foldl_cons]
      obtain ⟨h1, h2⟩ := fwd_conf_step codec syncSize hasCh P st r
        (fun k hk => hrs2 k (hk ▸ List.mem_cons_self _ _)) htr htdel
      exact ih _ (fun k hk => hrs2 k (List.mem_cons_of_mem _ hk)) h1 h2
  obtain ⟨h1, h2⟩ := hfold rs ⟨⟨0, 0, store, ns, [], []⟩, 0, []⟩ hrs
    (by intro op hop; simp at hop) (by intro k hk; simp at hk)
  show ∀ op ∈ ((rs.foldl (swapStep codec false syncSize hasCh)
      ⟨⟨0, 0, store, ns, [], []⟩, 0, []⟩).sw.syncAndDelete.syncOp).trace,
    ∀ x : DsKey, op.key? = some x →
      (P x ∧ decodesV1 codec x = true) ∨
      (∃ k : DsKey, P k ∧ candidateNewKey codec k = some x)
  rw [syncAndDelete_eq]
  intro op hop x hx
  simp only [SwapWorker.syncOp] at hop
  rcases List.mem_append.mp hop with hop2 | hop2
  · rcases List.mem_append.mp hop2 with hop3 | hop3
    · rcases List.mem_append.mp hop3 with hop4 | hop4
      · exact h1 op hop4 x hx
      · have h5 := List.mem_singleton.mp hop4
        subst h5
        exact Option.noConfusion hx
    · rcases List.mem_map.mp hop3 with ⟨k2, hk2, rfl⟩
      simp only [StoreOp.key?, Option.some.injEq] at hx
      subst hx
      exact Or.inl (h2 _ hk2)
  · have h5 := List.mem_singleton.mp hop2
    subst h5
    exact Option.noConfusion hx

end Mg8

namespace Mg8

theorem rev_conf_step (syncSize : Nat) (hasCh : Bool) (PO PN : DsKey → Prop)
    (st : UnswapState) (r : Swap) (hro : PO r.old) (hrn : PN r.new)
    (htr : ∀ op ∈ st.swker.trace, ∀ x : DsKey, op.key? = some x → PO x ∨ PN x)
    (htdel : ∀ k ∈ st.swker.toDelete, PN k)
    (hmapinv : ∀ q ∈ st.unswappedMap, PO q.2) :
    (∀ op ∈ (unswapStep syncSize hasCh st r).swker.trace, ∀ x : DsKey,
      op.key? = some x → PO x ∨ PN x) ∧
    (∀ k ∈ (unswapStep syncSize hasCh st r).swker.toDelete, PN k) ∧
    (∀ q ∈ (unswapStep syncSize hasCh st r).unswappedMap, PO q.2) := by
  have hops := swap_ops syncSize st.swker r.new r.old
  have hw1tr : ∀ op ∈ (SwapWorker.swap syncSize st.swker r.new r.old).1.trace,
      ∀ x : DsKey, op.key? = some x → PO x ∨ PN x := by
    intro op hop x hx
    rcases hops.1 op hop with h | h
    · exact htr op h x hx
    · rcases h x hx with rfl | rfl | hmem
      · exact Or.inr hrn
      · exact Or.inl hro
      · exact Or.inr (htdel x hmem)
  have hw1td : ∀ k ∈ (SwapWorker.swap syncSize st.swker r.new r.old).1.toDelete,
      PN k := by
    intro k hk
    rcases hops.2 k hk with rfl | hmem
    · exact hrn
    · exact htdel k hmem
  have hmap2 : ∀ q ∈ aput st.unswappedMap r.new r.old, PO q.2 := by
    intro q hq
    rcases mem_aput _ _ _ _ hq with h | h
    · exact hmapinv q h
    · rw [h]
      exact hro
  rcases hsw : SwapWorker.swap syncSize st.swker r.new r.old with ⟨w1, err⟩
  rw [hsw] at hw1tr hw1td
  cases err with
  | none =>
    rw [unswapStep_ok syncSize hasCh st r w1 hsw]
    exact ⟨hw1tr, hw1td, hmap2⟩
  | some e =>
    cases e with
    | putFail =>
      rw [unswapStep_err syncSize hasCh st r w1 hsw]
      exact ⟨hw1tr, hw1td, hmapinv⟩
    | notFound =>
      cases hmap : alookup st.unswappedMap r.new with
      | none =>
        rw [unswapStep_nf_nomap syncSize hasCh st r w1 hsw hmap]
        exact ⟨hw1tr, hw1td, hmapinv⟩
      | some prior =>
        have hpriorPO : PO prior :=
          hmapinv (r.new, prior) (mem_of_alookup_eq_some _ _ _ hmap)
        cases hgp : w1.store.get prior with
        | none =>
          rw [unswapStep_nf_getfail syncSize hasCh st r w1 prior hsw hmap hgp]
          refine ⟨?_, hw1td, hmapinv⟩
          intro op hop x hx
          rcases List.mem_append.mp hop with h | h
          · exact hw1tr op h x hx
          · have h2 : op = StoreOp.sync w1.syncNs ∨ op = StoreOp.get prior := by
              simpa using h
            rcases h2 with rfl | rfl <;>
              simp only [StoreOp.key?, Option.some.injEq] at hx
            · exact Option.noConfusion hx
            · exact Or.inl (hx ▸ hpriorPO)
        | some v =>
          have htail3 : ∀ op, op = StoreOp.sync w1.syncNs ∨ op = StoreOp.get prior ∨
              op = StoreOp.put r.old v →
              ∀ x : DsKey, op.key? = some x → PO x ∨ PN x := by
            rintro op (rfl | rfl | rfl) x hx <;>
              simp only [StoreOp.key?, Option.some.injEq] at hx
            · exact Option.noConfusion hx
            · exact Or.inl (hx ▸ hpriorPO)
            · exact Or.inl (hx ▸ hro)
          by_cases hpf : r.old ∈ w1.store.failPut
          · rw [unswapStep_nf_restore_putfail syncSize hasCh st r w1 prior v
              hsw hmap hgp hpf]
            refine ⟨?_, hw1td, hmap2⟩
            intro op hop x hx
            rcases List.mem_append.mp hop with h | h
            · exact hw1tr op h x hx
            · exact htail3 op (by simpa using h) x hx
          · rw [unswapStep_nf_restore syncSize hasCh st r w1 prior v hsw hmap hgp hpf]
            refine ⟨?_, hw1td, hmap2⟩
            intro op hop x hx
            rcases List.mem_append.mp hop with h | h
            · exact hw1tr op h x hx
            · exact htail3 op (by simpa using h) x hx

theorem rev_conf_run (syncSize : Nat) (hasCh : Bool) (PO PN : DsKey → Prop)
    (rs : List Swap) (store : DStore) (ns : DsKey)
    (hrs : ∀ r ∈ rs, PO r.old ∧ PN r.new) :
    ∀ op ∈ (unswapWorkerRun syncSize hasCh rs store ns).swker.trace,
    ∀ x : DsKey, op.key? = some x → PO x ∨ PN x := by
  have hfold : ∀ (rs2 : List Swap) (st : UnswapState),
      (∀ r ∈ rs2, PO r.old ∧ PN r.new) →
      (∀ op ∈ st.swker.trace, ∀ x : DsKey, op.key? = some x → PO x ∨ PN x) →
      (∀ k ∈ st.swker.toDelete, PN k) →
      (∀ q ∈ st.unswappedMap, PO q.2) →
      (∀ op ∈ (rs2.foldl (unswapStep syncSize hasCh) st).swker.trace,
        ∀ x : DsKey, op.key? = some x → PO x ∨ PN x) ∧
      (∀ k ∈ (rs2.foldl (unswapStep syncSize hasCh) st).swker.toDelete, PN k) := by
    intro rs2
    induction rs2 with
    | nil => intro st _ htr htdel _; exact ⟨htr, htdel⟩
    | cons r rest ih =>
      intro st hrs2 htr htdel hmapinv
      rw [List.foldl_cons]
      obtain ⟨hr1, hr2⟩ := hrs2 r (List.mem_cons_self _ _)
      obtain ⟨h1, h2, h3⟩ := rev_conf_step syncSize hasCh PO PN st r hr1 hr2
        htr htdel hmapinv
      exact ih _ (fun q hq => hrs2 q (List.mem_cons_of_mem _ hq)) h1 h2 h3
  obtain ⟨h1, h2⟩ := hfold rs ⟨⟨0, 0, store, ns, [], []⟩, 0, [], []⟩ hrs
    (by intro op hop; simp at hop) (by intro k hk; simp at hk)
    (by intro q hq; simp at hq)
  show ∀ op ∈ ((rs.foldl (unswapStep syncSize hasCh)
      ⟨⟨0, 0, store, ns, [], []⟩, 0, [], []⟩).swker.syncAndDelete.syncOp).trace,
    ∀ x : DsKey, op.key? = some x → PO x ∨ PN x
  rw [syncAndDelete_eq]
  intro op hop x hx
  simp only [SwapWorker.syncOp] at hop
  rcases List.mem_append.mp hop with hop2 | hop2
  · rcases List.mem_append.mp hop2 with hop3 | hop3
    · rcases List.mem_append.mp hop3 with hop4 | hop4
      · exact h1 op hop4 x hx
      · have h5 := List.mem_singleton.mp hop4
        subst h5
        exact Option.noConfusion hx
    · rcases List.mem_map.mp hop3 with ⟨k2, hk2, rfl⟩
      simp only [StoreOp.key?, Option.some.injEq] at hx
      subst hx
      exact Or.inr (h2 _ hk2)
  · have h5 := List.mem_singleton.mp hop2
    subst h5
    exact Option.noConfusion hx

end Mg8

namespace Mg8

theorem CidSwapperRun_errMsg_none (codec : Codec) (syncSize : Nat) (ns : DsKey)
    (hasCh : Bool) (store : DStore) (dryRun : Bool)
    (h : (swapWorkerRun codec dryRun syncSize hasCh (store.queryKeys ns)
      store ns).errored = 0) :
    (CidSwapperRun codec syncSize ns hasCh store dryRun).errMsg = none := by
  show (runWorkers [((swapWorkerRun codec dryRun syncSize hasCh (store.queryKeys ns)
    store ns).sw.swapped,
    (swapWorkerRun codec dryRun syncSize hasCh (store.queryKeys ns)
      store ns).errored)]).2 = none
  rw [h]
  simp [runWorkers]

theorem CidSwapperRevert_errMsg_none (syncSize : Nat) (ns : DsKey) (hasCh : Bool)
    (store : DStore) (records : List Swap)
    (h : (unswapWorkerRun syncSize hasCh records store ns).errored = 0) :
    (CidSwapperRevert syncSize ns hasCh store records).errMsg = none := by
  show (runWorkers [((unswapWorkerRun syncSize hasCh records store ns).swker.swapped,
    (unswapWorkerRun syncSize hasCh records store ns).errored)]).2 = none
  rw [h]
  simp [runWorkers]

end Mg8

namespace Mg8

/-- C1 (amended): over a store whose keys all sit strictly under the
queried namespace and decode to CIDs, and in which — as the
counterexample forces — keys that classify to the same new key hold
the same value and no new key collides with a key already in the
store, the forward run followed by the reversal of the Swap records it
produced restores exactly the original key set and values, errors in
neither direction, and never issues a get, put or delete against a
version-0 key in either phase. -/
theorem c1_roundtrip_amended (codec : Codec) (syncSize : Nat) (ns : DsKey)
    (st0 : List (DsKey × Value))
    (H1 : (st0.map Prod.fst).Nodup)
    (H2 : ∀ e ∈ st0, ns.isPrefixOf e.1 = true ∧ ¬ e.1 = ns)
    (_H3 : ∀ e ∈ st0, (codec.dsKeyToCid (DsKey.baseNamespace e.1)).isSome = true)
    (H4 : ∀ e1 ∈ st0, ∀ e2 ∈ st0, ∀ nk : DsKey, candidateNewKey codec e1.1 = some nk →
      candidateNewKey codec e2.1 = some nk → e1.2 = e2.2)
    (H5 : ∀ e ∈ st0, ∀ nk : DsKey, candidateNewKey codec e.1 = some nk →
      ¬ nk ∈ st0.map Prod.fst) :
    (CidSwapperRun codec syncSize ns true ⟨st0, []⟩ false).errMsg = none ∧
    (CidSwapperRevert syncSize ns true
      (CidSwapperRun codec syncSize ns true ⟨st0, []⟩ false).fin.sw.store
      (CidSwapperRun codec syncSize ns true ⟨st0, []⟩ false).fin.notifs).errMsg = none ∧
    (∀ x : DsKey, alookup (CidSwapperRevert syncSize ns true
      (CidSwapperRun codec syncSize ns true ⟨st0, []⟩ false).fin.sw.store
      (CidSwapperRun codec syncSize ns true
        ⟨st0, []⟩ false).fin.notifs).fin.swker.store.data x = alookup st0 x) ∧
    (∀ e ∈ st0, decodesV0 codec e.1 = true →
      (∀ op ∈ (CidSwapperRun codec syncSize ns true ⟨st0, []⟩ false).fin.sw.trace,
        ¬ op.key? = some e.1) ∧
      (∀ op ∈ (CidSwapperRevert syncSize ns true
        (CidSwapperRun codec syncSize ns true ⟨st0, []⟩ false).fin.sw.store
        (CidSwapperRun codec syncSize ns true
          ⟨st0, []⟩ false).fin.notifs).fin.swker.trace,
        ¬ op.key? = some e.1)) := by
  have hq := queryKeys_all st0 ns H2
  have hFwd := fwd_loop codec syncSize st0 H1 H4 H5 st0 []
    ⟨⟨0, 0, ⟨st0, []⟩, ns, [], []⟩, 0, []⟩ rfl (fwd_init codec st0 ns)
  obtain ⟨hfp, herr, hnot, deleted, pend, hsp, htd, hA, hB, hC⟩ := hFwd
  have hfin : (CidSwapperRun codec syncSize ns true ⟨st0, []⟩ false).fin =
      { (st0.map (fun e => (.ok e.1 : QueryResult))).foldl
          (swapStep codec false syncSize true)
          ⟨⟨0, 0, ⟨st0, []⟩, ns, [], []⟩, 0, []⟩ with
        sw := ((st0.map (fun e => (.ok e.1 : QueryResult))).foldl
          (swapStep codec false syncSize true)
          ⟨⟨0, 0, ⟨st0, []⟩, ns, [], []⟩, 0, []⟩).sw.syncAndDelete.syncOp } := by
    show swapWorkerRun codec false syncSize true
      (DStore.queryKeys ⟨st0, []⟩ ns) ⟨st0, []⟩ ns = _
    rw [hq]
    rfl
  have hnotifs : (CidSwapperRun codec syncSize ns true ⟨st0, []⟩ false).fin.notifs =
      recordsOf codec st0 := by
    rw [hfin]
    exact hnot
  rw [hnotifs]
  have herrF : (swapWorkerRun codec false syncSize true
      (DStore.queryKeys ⟨st0, []⟩ ns) ⟨st0, []⟩ ns).errored = 0 := by
    rw [hq]
    exact herr
  have hmsgF : (CidSwapperRun codec syncSize ns true ⟨st0, []⟩ false).errMsg = none :=
    CidSwapperRun_errMsg_none codec syncSize ns true ⟨st0, []⟩ false herrF
  have hdata1 : (CidSwapperRun codec syncSize ns true
      ⟨st0, []⟩ false).fin.sw.store.data =
      (delAll ((st0.map (fun e => (.ok e.1 : QueryResult))).foldl
          (swapStep codec false syncSize true)
          ⟨⟨0, 0, ⟨st0, []⟩, ns, [], []⟩, 0, []⟩).sw.store
        ((st0.map (fun e => (.ok e.1 : QueryResult))).foldl
          (swapStep codec false syncSize true)
          ⟨⟨0, 0, ⟨st0, []⟩, ns, [], []⟩, 0, []⟩).sw.toDelete).data := by
    rw [hfin, syncAndDelete_eq]
    rfl
  have hfp1 : (CidSwapperRun codec syncSize ns true
      ⟨st0, []⟩ false).fin.sw.store.failPut = [] := by
    rw [hfin, syncAndDelete_eq]
    show (delAll _ _).failPut = []
    rw [delAll_failPut]
    exact hfp
  have hnewsK_fresh : ∀ x : DsKey, x ∈ (newsOf codec st0).map Prod.fst →
      ¬ x ∈ st0.map Prod.fst := by
    intro x hx
    rcases (mem_newsKeys codec st0 x).mp hx with ⟨e2, he2, hc2⟩
    exact H5 e2 he2 x hc2
  have hv1keys_st0 : ∀ x : DsKey, x ∈ (v1Entries codec st0).map Prod.fst →
      x ∈ st0.map Prod.fst := by
    intro x hx
    rcases (mem_v1Keys codec st0 x).mp hx with ⟨e2, he2, hx2, _⟩
    exact List.mem_map.mpr ⟨e2, he2, hx2⟩
  have hpend_v1 : ∀ x ∈ pend, x ∈ (v1Entries codec st0).map Prod.fst := by
    intro x hx
    rw [hsp]
    exact List.mem_append_right _ hx
  have hdel_v1 : ∀ x ∈ deleted, x ∈ (v1Entries codec st0).map Prod.fst := by
    intro x hx
    rw [hsp]
    exact List.mem_append_left _ hx
  have F1 : ∀ (x : DsKey) (v : Value), alookup (newsOf codec st0) x = some v →
      alookup (CidSwapperRun codec syncSize ns true
        ⟨st0, []⟩ false).fin.sw.store.data x = some v := by
    intro x v hx
    have hxnp : ¬ x ∈ pend := by
      intro hmem
      have hxK : x ∈ (newsOf codec st0).map Prod.fst :=
        List.mem_map.mpr ⟨(x, v), mem_of_alookup_eq_some _ _ _ hx, rfl⟩
      exact hnewsK_fresh x hxK (hv1keys_st0 x (hpend_v1 x hmem))
    rw [hdata1, delAll_data, htd, if_neg hxnp]
    exact hA x v hx
  have F2 : ∀ x : DsKey, alookup (newsOf codec st0) x = none →
      x ∈ (v1Entries codec st0).map Prod.fst →
      alookup (CidSwapperRun codec syncSize ns true
        ⟨st0, []⟩ false).fin.sw.store.data x = none := by
    intro x hx hv1
    rw [hdata1, delAll_data, htd]
    by_cases hxp : x ∈ pend
    · rw [if_pos hxp]
    · rw [if_neg hxp]
      have hxd : x ∈ deleted := by
        have h2 : x ∈ deleted ++ pend := by
          rw [← hsp]
          exact hv1
        rcases List.mem_append.mp h2 with h | h
        exacts [h, absurd h hxp]
      exact hB x hx hxd
  have F3 : ∀ x : DsKey, alookup (newsOf codec st0) x = none →
      ¬ x ∈ (v1Entries codec st0).map Prod.fst →
      alookup (CidSwapperRun codec syncSize ns true
        ⟨st0, []⟩ false).fin.sw.store.data x = alookup st0 x := by
    intro x hx hnv1
    have hxp : ¬ x ∈ pend := fun h => hnv1 (hpend_v1 x h)
    have hxd : ¬ x ∈ deleted := fun h => hnv1 (hdel_v1 x h)
    rw [hdata1, delAll_data, htd, if_neg hxp]
    exact hC x hx hxd
  have hrevinv0 : RevInv codec st0 []
      ⟨⟨0, 0, (CidSwapperRun codec syncSize ns true ⟨st0, []⟩ false).fin.sw.store,
        ns, [], []⟩, 0, [], []⟩ := by
    refine ⟨hfp1, rfl, ?_, ?_, ?_, ?_, ?_, ?_, ?_⟩
    · intro x hx
      exact absurd hx (List.not_mem_nil x)
    · intro x v hx
      simp [v1Entries, alookup] at hx
    · intro x hx hxNp hxtd
      simp [newsOf] at hxNp
    · intro x v hx hguard hnews
      exact F1 x v hnews
    · intro x hx hnews hv1
      exact F2 x hnews hv1
    · intro x hx hnews hnv1
      exact F3 x hnews hnv1
    · intro x hxNp
      simp [newsOf] at hxNp
  have hRev := rev_loop codec syncSize st0 H1 H4 H5 st0 []
    ⟨⟨0, 0, (CidSwapperRun codec syncSize ns true ⟨st0, []⟩ false).fin.sw.store,
      ns, [], []⟩, 0, [], []⟩ rfl hrevinv0
  obtain ⟨hfp2, herr2, gTD, gR1, gR2, gR3, gR4, gR5, gRM⟩ := hRev
  have hdata2 : (CidSwapperRevert syncSize ns true
      (CidSwapperRun codec syncSize ns true ⟨st0, []⟩ false).fin.sw.store
      (recordsOf codec st0)).fin.swker.store.data =
      (delAll ((recordsOf codec st0).foldl (unswapStep syncSize true)
          ⟨⟨0, 0, (CidSwapperRun codec syncSize ns true ⟨st0, []⟩ false).fin.sw.store,
            ns, [], []⟩, 0, [], []⟩).swker.store
        ((recordsOf codec st0).foldl (unswapStep syncSize true)
          ⟨⟨0, 0, (CidSwapperRun codec syncSize ns true ⟨st0, []⟩ false).fin.sw.store,
            ns, [], []⟩, 0, [], []⟩).swker.toDelete).data := by
    show (((recordsOf codec st0).foldl (unswapStep syncSize true)
      ⟨⟨0, 0, (CidSwapperRun codec syncSize ns true ⟨st0, []⟩ false).fin.sw.store,
        ns, [], []⟩, 0, [], []⟩).swker.syncAndDelete.syncOp).store.data = _
    rw [syncAndDelete_eq]
    rfl
  have hmsgR : (CidSwapperRevert syncSize ns true
      (CidSwapperRun codec syncSize ns true ⟨st0, []⟩ false).fin.sw.store
      (recordsOf codec st0)).errMsg = none :=
    CidSwapperRevert_errMsg_none syncSize ns true _ _ herr2
  have hfinalstore : ∀ x : DsKey,
      alookup (CidSwapperRevert syncSize ns true
        (CidSwapperRun codec syncSize ns true ⟨st0, []⟩ false).fin.sw.store
        (recordsOf codec st0)).fin.swker.store.data x = alookup st0 x := by
    intro x
    rw [hdata2, delAll_data]
    cases hv1x : alookup (v1Entries codec st0) x with
    | some v =>
      have hxmem := mem_of_alookup_eq_some _ _ _ hv1x
      have hx_v1 : x ∈ (v1Entries codec st0).map Prod.fst :=
        List.mem_map.mpr ⟨(x, v), hxmem, rfl⟩
      have hx_st0 : x ∈ st0.map Prod.fst := hv1keys_st0 x hx_v1
      have hxnp : ¬ x ∈ ((recordsOf codec st0).foldl (unswapStep syncSize true)
          ⟨⟨0, 0, (CidSwapperRun codec syncSize ns true ⟨st0, []⟩ false).fin.sw.store,
            ns, [], []⟩, 0, [], []⟩).swker.toDelete := by
        intro h
        exact hnewsK_fresh x (gTD x h) hx_st0
      rw [if_neg hxnp, gR1 x v hv1x]
      have hx_in_st0 : (x, v) ∈ st0 := (List.mem_filter.mp hxmem).1
      exact (alookup_of_mem_nodup st0 x v hx_in_st0 H1).symm
    | none =>
      have hxnv1 : ¬ x ∈ (v1Entries codec st0).map Prod.fst :=
        (alookup_eq_none_iff _ _).mp hv1x
      cases hnx : alookup (newsOf codec st0) x with
      | some v =>
        have hx_newsK : x ∈ (newsOf codec st0).map Prod.fst :=
          List.mem_map.mpr ⟨(x, v), mem_of_alookup_eq_some _ _ _ hnx, rfl⟩
        have hx_fresh : ¬ x ∈ st0.map Prod.fst := hnewsK_fresh x hx_newsK
        have hst0_none : alookup st0 x = none := (alookup_eq_none_iff _ _).mpr hx_fresh
        rw [hst0_none]
        by_cases hxp : x ∈ ((recordsOf codec st0).foldl (unswapStep syncSize true)
          ⟨⟨0, 0, (CidSwapperRun codec syncSize ns true ⟨st0, []⟩ false).fin.sw.store,
            ns, [], []⟩, 0, [], []⟩).swker.toDelete
        · rw [if_pos hxp]
        · rw [if_neg hxp]
          exact gR2 x hv1x hx_newsK hxp
      | none =>
        have hx_not_newsK : ¬ x ∈ (newsOf codec st0).map Prod.fst :=
          (alookup_eq_none_iff _ _).mp hnx
        have hxp : ¬ x ∈ ((recordsOf codec st0).foldl (unswapStep syncSize true)
            ⟨⟨0, 0, (CidSwapperRun codec syncSize ns true ⟨st0, []⟩ false).fin.sw.store,
              ns, [], []⟩, 0, [], []⟩).swker.toDelete :=
          fun h => hx_not_newsK (gTD x h)
        rw [if_neg hxp]
        exact gR5 x hv1x hnx hxnv1
  have hconfF := fwd_conf_run codec syncSize true (fun k => k ∈ st0.map Prod.fst)
    (DStore.queryKeys ⟨st0, []⟩ ns) ⟨st0, []⟩ ns (by
      intro k hk
      rw [hq] at hk
      rcases List.mem_map.mp hk with ⟨e2, he2, heq⟩
      have h3 : e2.1 = k := Except.ok.inj heq
      exact h3 ▸ List.mem_map.mpr ⟨e2, he2, rfl⟩)
  have hrecs : ∀ r ∈ recordsOf codec st0,
      (∃ e2 ∈ st0, e2.1 = r.old ∧ decodesV1 codec e2.1 = true) ∧
      (∃ e2 ∈ st0, candidateNewKey codec e2.1 = some r.new) := by
    intro r hr
    rcases List.mem_filterMap.mp hr with ⟨e2, he2, hm⟩
    rcases Option.map_eq_some'.mp hm with ⟨nk, hnk, hre⟩
    subst hre
    exact ⟨⟨e2, he2, rfl, cand_isSome_v1 _ _ _ hnk⟩, ⟨e2, he2, hnk⟩⟩
  have hconfR := rev_conf_run syncSize true
    (fun x => ∃ e2 ∈ st0, e2.1 = x ∧ decodesV1 codec e2.1 = true)
    (fun x => ∃ e2 ∈ st0, candidateNewKey codec e2.1 = some x)
    (recordsOf codec st0)
    (CidSwapperRun codec syncSize ns true ⟨st0, []⟩ false).fin.sw.store ns hrecs
  refine ⟨hmsgF, hmsgR, hfinalstore, ?_⟩
  intro e0 he0 hv0
  constructor
  · intro op hop hx
    rcases hconfF op hop e0.1 hx with ⟨_, hv1⟩ | ⟨k, hk, hck⟩
    · exact v0_not_v1 codec e0.1 hv0 hv1
    · rcases List.mem_map.mp hk with ⟨e2, he2, hk2⟩
      have hck2 : candidateNewKey codec e2.1 = some e0.1 := by
        rw [hk2]
        exact hck
      exact H5 e2 he2 e0.1 hck2 (List.mem_map.mpr ⟨e0, he0, rfl⟩)
  · intro op hop hx
    rcases hconfR op hop e0.1 hx with ⟨e2, he2, heq, hv1⟩ | ⟨e2, he2, hck⟩
    · rw [heq] at hv1
      exact v0_not_v1 codec e0.1 hv0 hv1
    · exact H5 e2 he2 e0.1 hck (List.mem_map.mpr ⟨e0, he0, rfl⟩)

end Mg8

namespace Mg8

/-- Witness for C1 (amended) at a concrete input: two version-1 keys
that collapse onto one new key while holding equal values, plus one
version-0 key; the 1-byte threshold makes every swap flush, so the
reversal of the second record goes through the de-duplication map, and
the round trip still restores the value at `blocks/b`. -/
theorem c1_roundtrip_amended_witness :
    alookup (CidSwapperRevert 1 ["blocks"] true
      (CidSwapperRun c1Codec 1 ["blocks"] true
        ⟨[(["blocks", "a"], [1]), (["blocks", "b"], [1]), (["blocks", "z"], [2])],
          []⟩ false).fin.sw.store
      (CidSwapperRun c1Codec 1 ["blocks"] true
        ⟨[(["blocks", "a"], [1]), (["blocks", "b"], [1]), (["blocks", "z"], [2])],
          []⟩ false).fin.notifs).fin.swker.store.data ["blocks", "b"] =
      alookup [(["blocks", "a"], [1]), (["blocks", "b"], [1]), (["blocks", "z"], [2])]
        ["blocks", "b"] :=
  (c1_roundtrip_amended c1Codec 1 ["blocks"]
    [(["blocks", "a"], [1]), (["blocks", "b"], [1]), (["blocks", "z"], [2])]
    (by decide) (by decide) (by decide) (by decide) (by decide)).2.2.1 ["blocks", "b"]

end Mg8
